import Mathlib

/-!
Verification of the transcriber repository's field-extraction and
spreadsheet-synchronization engine.

The definitions below are a shallow embedding of the Python sources:
`transcriber.py` (batched field extraction, manager evaluation, binary score
aggregation), `excel_reader.py` / `excel_writer.py` (the local-workbook
backend), `google_sheets_handler.py` (the cloud backend) and
`processed_files_tracker.py` (the deduplication ledger).  Pure helper
functions mirror Python string operations (`strip`, `split`, `lower`,
substring tests, `str()` of integers); stateful spreadsheet code is modelled
by explicit grid values threaded through the functions.  Generation-service
calls are modelled by their `Option String` responses (`none` = the call
raised / failed), and the number of issued calls is returned alongside each
result.
-/

/-! ## Python-style string helpers -/

/-- The whitespace characters stripped by Python `str.strip()` (the ASCII
subset, which is all this program's data uses). -/
def isPySpace (c : Char) : Bool :=
  c == ' ' || c == '\t' || c == '\n' || c == '\r' || c == '\x0B' || c == '\x0C'

/-- Python `s.strip()`. -/
def pyStrip (s : String) : String :=
  String.mk (((s.data.dropWhile isPySpace).reverse.dropWhile isPySpace).reverse)

/-- Lower-casing of a single character, covering ASCII plus the Cyrillic
letters that appear in this program's keyword tables (Python `str.lower()`
restricted to the alphabets actually used). -/
def lowerChar (c : Char) : Char :=
  if 'A' ≤ c && c ≤ 'Z' then Char.ofNat (c.toNat + 32)
  else if 0x410 ≤ c.toNat && c.toNat ≤ 0x42F then Char.ofNat (c.toNat + 32)
  else if c.toNat == 0x401 then Char.ofNat 0x451
  else if c.toNat == 0x404 then Char.ofNat 0x454
  else if c.toNat == 0x406 then Char.ofNat 0x456
  else if c.toNat == 0x407 then Char.ofNat 0x457
  else if c.toNat == 0x490 then Char.ofNat 0x491
  else c

/-- Python `s.lower()` (for the alphabets used by the program). -/
def myLower (s : String) : String := String.mk (s.data.map lowerChar)

/-- Helper for substring search over character lists. -/
def infixAux (needle : List Char) : List Char → Bool
  | [] => needle.isEmpty
  | l@(_ :: xs) => needle.isPrefixOf l || infixAux needle xs

/-- Python `needle in hay` for strings (substring containment). -/
def containsSub (hay needle : String) : Bool := infixAux needle.data hay.data

/-- Python `sep in s` for a single character. -/
def containsChar (s : String) (c : Char) : Bool := s.data.contains c

/-- Python `s.startswith(c)` for a one-character prefix. -/
def startsWithChar (s : String) (c : Char) : Bool :=
  match s.data with
  | x :: _ => x == c
  | [] => false

/-- Helper for Python `s.split(sep)`. -/
def splitCharAux (sep : Char) : List Char → List Char → List String
  | [], acc => [String.mk acc.reverse]
  | x :: xs, acc =>
    if x == sep then String.mk acc.reverse :: splitCharAux sep xs []
    else splitCharAux sep xs (x :: acc)

/-- Python `s.split(sep)` on a one-character separator. -/
def splitChar (sep : Char) (s : String) : List String := splitCharAux sep s.data []

/-- Helper for Python `s.split(sep, 1)`. -/
def splitOnceAux (sep : Char) : List Char → List Char → Option (String × String)
  | [], _ => Option.none
  | x :: xs, acc =>
    if x == sep then some (String.mk acc.reverse, String.mk xs)
    else splitOnceAux sep xs (x :: acc)

/-- Python `s.split(sep, 1)`: split at the first occurrence of `sep`
(`none` when `sep` does not occur). -/
def splitOnce (sep : Char) (s : String) : Option (String × String) :=
  splitOnceAux sep s.data []

/-- Value of a decimal digit character, `none` for non-digits
(used by the model of Python `int(...)`). -/
def digitVal (c : Char) : Option Nat :=
  if '0' ≤ c && c ≤ '9' then some (c.toNat - 48) else Option.none

/-- Parse a non-empty all-digit character list. -/
def parseDigits : List Char → Option Nat
  | [] => Option.none
  | l => l.foldl (fun acc c =>
      match acc, digitVal c with
      | some a, some d => some (a * 10 + d)
      | _, _ => Option.none) (some 0)

/-- Python `int(s)` for an already-stripped string: optional sign followed by
decimal digits, `none` models the `ValueError`. -/
def pyParseInt (s : String) : Option Int :=
  match s.data with
  | '-' :: rest => (parseDigits rest).map (fun n => -(n : Int))
  | '+' :: rest => (parseDigits rest).map (fun n => (n : Int))
  | l => (parseDigits l).map (fun n => (n : Int))

/-! ## Decimal rendering of numbers (Python `str(n)` and f-strings) -/

/-- The decimal digit character for `d % 10`-sized values. -/
def digitChar (d : Nat) : Char :=
  if d = 0 then '0' else if d = 1 then '1' else if d = 2 then '2'
  else if d = 3 then '3' else if d = 4 then '4' else if d = 5 then '5'
  else if d = 6 then '6' else if d = 7 then '7' else if d = 8 then '8' else '9'

/-- Fuel-driven decimal rendering accumulator. -/
def natToCharsAux : Nat → Nat → List Char → List Char
  | 0, _, acc => acc
  | fuel+1, n, acc =>
    let acc2 := digitChar (n % 10) :: acc
    if n < 10 then acc2 else natToCharsAux fuel (n / 10) acc2

/-- Python `str(n)` for a natural number. -/
def natToString (n : Nat) : String := String.mk (natToCharsAux (n+1) n [])

/-- Python `str(i)` for an integer. -/
def intToString (i : Int) : String :=
  match i with
  | .ofNat n => natToString n
  | .negSucc n => "-" ++ natToString (n+1)

/-- Decimal value of a digit list (used to invert `natToString`). -/
def charsToNat (l : List Char) : Nat :=
  l.foldl (fun a c => a * 10 + (c.toNat - 48)) 0



/-! ## Association lists (the model of Python `dict` insertion and lookup) -/

/-- Python `d[k] = v`: replace the value at the first occurrence of key `k`
(keeping its position, as a Python dict does), or append a new entry. -/
def insertAssoc {α β : Type} [DecidableEq α] : List (α × β) → α → β → List (α × β)
  | [], k, v => [(k, v)]
  | (k', v') :: rest, k, v =>
    if k' = k then (k', v) :: rest else (k', v') :: insertAssoc rest k v

/-- Python `d.get(k)` / `k in d`: first-occurrence lookup. -/
def lookupA {α β : Type} [DecidableEq α] : List (α × β) → α → Option β
  | [], _ => Option.none
  | (k', v') :: rest, k => if k' = k then some v' else lookupA rest k



/-! ## Worksheet model (openpyxl workbook state, value level)

An openpyxl worksheet is modelled by its cell values (1-based row/column
indexing, `none` for an absent/empty cell) together with its current
`max_row` / `max_column` dimensions.  Writing a cell with
`worksheet.cell(row=r, column=c, value=v)` updates the value and can only
grow the dimensions. -/

/-- A cell value: openpyxl returns strings or numbers for the cells this
program touches. -/
inductive CellVal where
  | s (v : String)
  | n (v : Int)
deriving DecidableEq

structure Worksheet where
  cells : Nat → Nat → Option CellVal
  nRows : Nat
  nCols : Nat

/-- `worksheet.cell(row=r, column=c, value=v)`. -/
def setCell (ws : Worksheet) (r c : Nat) (v : Option CellVal) : Worksheet :=
  ⟨fun r' c' => if r' = r ∧ c' = c then v else ws.cells r' c',
   max ws.nRows r, max ws.nCols c⟩


/-- Python `str(cell_value)` for a present cell value. -/
def pyStrCV : CellVal → String
  | .s v => v
  | .n i => intToString i

/-- Python truthiness of a cell value (`if header_value:`): `None`, the empty
string and the number `0` are falsy. -/
def truthyCV : Option CellVal → Bool
  | Option.none => false
  | some (.s v) => v ≠ ""
  | some (.n i) => i ≠ 0

/-- The emptiness test used by `find_next_empty_row`:
`cell_value is None or str(cell_value).strip() == ""`. -/
def cellBlank : Option CellVal → Bool
  | Option.none => true
  | some v => pyStrip (pyStrCV v) == ""

/-! ## Transcriber: batched dropdown/text field analysis
(`transcriber.py`, `_analyze_all_dropdown_fields` / `_analyze_all_text_fields`)

The generation call is modelled by its response: `some text` when
`generate_content` returned `text`, `none` when it raised.  Each function
also returns the number of generation calls it issued. -/

/-- `dropdown_options[0] if dropdown_options else "Невизначено"`. -/
def dropdownFallback (opts : List String) : String :=
  match opts with
  | [] => "Невизначено"
  | o :: _ => o

/-- The per-value validation inlined in `_analyze_all_dropdown_fields`:
accept the model value only on an exact (case-sensitive) membership test,
otherwise fall back to the first option. -/
def validateChoice (opts : List String) (value : String) : String :=
  if opts.contains value then value else dropdownFallback opts

/-- `field_mappings` for dropdown fields: `enumerate(dropdown_fields.items(), 1)`
with an entry only for fields whose option list is truthy (non-empty). -/
def buildDropdownMappingsAux : List (String × List String) → Int → List (Int × String)
  | [], _ => []
  | (name, opts) :: rest, i =>
    match opts with
    | [] => buildDropdownMappingsAux rest (i+1)
    | _ :: _ => (i, name) :: buildDropdownMappingsAux rest (i+1)

def buildDropdownMappings (fields : List (String × List String)) : List (Int × String) :=
  buildDropdownMappingsAux fields 1

/-- One iteration of the dropdown response-parsing loop: strip the segment,
require a colon, parse the leading ordinal (a failed `int(...)` continues the
loop), map it back to a field name and validate the value against that
field's option list.  (The dictionary access `dropdown_fields[field_name]`
cannot fail in the source because mapping entries come from the same dict;
the unreachable `none` branch leaves the results unchanged.) -/
def parseDropdownLine (fields : List (String × List String))
    (mappings : List (Int × String)) (results : List (String × String))
    (line : String) : List (String × String) :=
  let l := pyStrip line
  if containsChar l ':' then
    match splitOnce ':' l with
    | some (numStr, rest) =>
      match pyParseInt (pyStrip numStr) with
      | some fieldNum =>
        let value := pyStrip rest
        match lookupA mappings fieldNum with
        | some fieldName =>
          match lookupA fields fieldName with
          | some opts => insertAssoc results fieldName (validateChoice opts value)
          | Option.none => results
        | Option.none => results
      | Option.none => results
    | Option.none => results
  else results

/-- The trailing loop of `_analyze_all_dropdown_fields`: every field not yet
present in the results receives its fallback value. -/
def fillMissingDropdown (fields : List (String × List String))
    (results : List (String × String)) : List (String × String) :=
  fields.foldl (fun acc p =>
    match lookupA acc p.1 with
    | some _ => acc
    | Option.none => acc ++ [(p.1, dropdownFallback p.2)]) results

/-- `_analyze_all_dropdown_fields`: one generation call for all dropdown
fields (none when the field set is empty); on call failure every field
receives its fallback. -/
def analyzeAllDropdownFields (response : Option String)
    (fields : List (String × List String)) : List (String × String) × Nat :=
  if fields.isEmpty then ([], 0)
  else
    match response with
    | Option.none => (fields.map (fun p => (p.1, dropdownFallback p.2)), 1)
    | some text =>
      let mappings := buildDropdownMappings fields
      let results :=
        (splitChar ',' (pyStrip text)).foldl (parseDropdownLine fields mappings) []
      (fillMissingDropdown fields results, 1)

/-- `field_mappings` for text fields: `enumerate(text_fields.keys(), 1)`. -/
def buildTextMappingsAux : List String → Int → List (Int × String)
  | [], _ => []
  | n :: rest, i => (i, n) :: buildTextMappingsAux rest (i+1)

def buildTextMappings (names : List String) : List (Int × String) :=
  buildTextMappingsAux names 1

/-- One iteration of the text response-parsing loop. -/
def parseTextLine (mappings : List (Int × String))
    (results : List (String × String)) (line : String) : List (String × String) :=
  let l := pyStrip line
  if containsChar l ':' then
    match splitOnce ':' l with
    | some (numStr, rest) =>
      match pyParseInt (pyStrip numStr) with
      | some fieldNum =>
        match lookupA mappings fieldNum with
        | some fieldName => insertAssoc results fieldName (pyStrip rest)
        | Option.none => results
      | Option.none => results
    | Option.none => results
  else results

/-- The trailing loop of `_analyze_all_text_fields`: every field not yet
present in the results receives the "not specified" sentinel. -/
def fillMissingText (names : List String)
    (results : List (String × String)) : List (String × String) :=
  names.foldl (fun acc n =>
    match lookupA acc n with
    | some _ => acc
    | Option.none => acc ++ [(n, "Не вказано")]) results

/-- `_analyze_all_text_fields`: one generation call for all text fields;
unprocessed fields receive the sentinel, and a failed call maps every field
to the error sentinel. -/
def analyzeAllTextFields (response : Option String)
    (names : List String) : List (String × String) × Nat :=
  if names.isEmpty then ([], 0)
  else
    match response with
    | Option.none => (names.map (fun n => (n, "Помилка аналізу")), 1)
    | some text =>
      let mappings := buildTextMappings names
      let results :=
        (splitChar ',' (pyStrip text)).foldl (parseTextLine mappings) []
      (fillMissingText names results, 1)

/-! ## Transcriber: `fill_excel_data` field partition and call budget -/

/-- The per-field schema record produced by the reader and consumed by
`fill_excel_data` (only the parts the partition inspects). -/
structure FieldInfo where
  ftype : String
  dropdownOptions : List String
deriving DecidableEq

/-- The partition in `fill_excel_data`: a `None` entry is skipped; a field
with `type == 'dropdown'` and a truthy option list goes to the dropdown
batch, everything else to the text batch. -/
def partitionFields (fs : List (String × Option FieldInfo)) :
    List (String × FieldInfo) × List (String × FieldInfo) :=
  fs.foldl (fun acc p =>
    match p.2 with
    | Option.none => acc
    | some info =>
      if info.ftype == "dropdown" && !info.dropdownOptions.isEmpty then
        (acc.1 ++ [(p.1, info)], acc.2)
      else
        (acc.1, acc.2 ++ [(p.1, info)])) ([], [])

/-- The two batched analysis steps of `fill_excel_data` (the field-extraction
phase), with their respective generation responses. -/
def fillExcelDataExtraction (fs : List (String × Option FieldInfo))
    (respDropdown respText : Option String) :
    (List (String × String) × Nat) × (List (String × String) × Nat) :=
  let parts := partitionFields fs
  (analyzeAllDropdownFields respDropdown
      (parts.1.map (fun p => (p.1, p.2.dropdownOptions))),
   analyzeAllTextFields respText (parts.2.map Prod.fst))

/-- The number of generation calls `fill_excel_data` issues for field
extraction (the `api_calls_count` increments attached to the two batched
analysis steps). -/
def fillExcelDataExtractionCalls (fs : List (String × Option FieldInfo))
    (respDropdown respText : Option String) : Nat :=
  (fillExcelDataExtraction fs respDropdown respText).1.2 +
  (fillExcelDataExtraction fs respDropdown respText).2.2

/-! ## Transcriber: manager-performance evaluation
(`transcriber.py`, `_evaluate_manager_performance`) -/

/-- The parsed evaluation record built by `_evaluate_manager_performance`. -/
structure EvalResult where
  scores : List (String × Int)
  totalScore : Int
  overallAssessment : String
  recommendations : String
  isPerformanceGood : Bool
deriving DecidableEq

/-- The five recognised rubric keys. -/
def evalRubricKeys : List String :=
  ["ввічливість", "професійність", "швидкість", "вирішення", "протокол"]

/-- One iteration of the evaluation response-parsing loop
(`key: value` lines; recognised keys accumulate scores, the two free-text
keys overwrite their fields, anything else is ignored). -/
def parseEvalLine (ev : EvalResult) (line : String) : EvalResult :=
  let l := pyStrip line
  if containsChar l ':' then
    match splitOnce ':' l with
    | some (k, v) =>
      let key := myLower (pyStrip k)
      let value := pyStrip v
      if evalRubricKeys.contains key then
        match pyParseInt value with
        | some score =>
          { ev with scores := insertAssoc ev.scores key score,
                    totalScore := ev.totalScore + score }
        | Option.none => { ev with scores := insertAssoc ev.scores key 0 }
      else if containsSub key "загальна оцінка" then
        { ev with overallAssessment := value }
      else if containsSub key "рекомендації" then
        { ev with recommendations := value }
      else ev
    | Option.none => ev
  else ev

/-- `_evaluate_manager_performance`: parse the rubric response; on a raised
generation call (`none`) return the zero-initialised fallback record with
`is_performance_good = True`. -/
def evaluateManagerPerformance (response : Option String) : EvalResult :=
  match response with
  | Option.none =>
    { scores := [], totalScore := 0,
      overallAssessment := "Помилка аналізу",
      recommendations := "Не вдалося проаналізувати",
      isPerformanceGood := true }
  | some text =>
    let ev := (splitChar '\n' (pyStrip text)).foldl parseEvalLine
      { scores := [], totalScore := 0, overallAssessment := "",
        recommendations := "", isPerformanceGood := true }
    { ev with isPerformanceGood :=
        decide (ev.totalScore ≥ 4) &&
        !(containsSub (myLower ev.recommendations) "проблем") }

/-! ## Transcriber: binary score aggregation
(`transcriber.py`, `_calculate_score_from_binary_fields`) -/

/-- The `analyzed_value` slot of a filled-data entry: `None`, a string, a
number, or the nested evaluation record (`_manager_evaluation`). -/
inductive AValue where
  | none
  | str (v : String)
  | int (v : Int)
  | eval (e : EvalResult)
deriving DecidableEq

/-- One iteration of `_calculate_score_from_binary_fields`: a string value
whose stripped form is `"1"` or `"0"` has its integer value added to the
running total. -/
def calcScoreStep (total : Int) (p : String × AValue) : Int :=
  match p.2 with
  | .str v =>
    if pyStrip v == "1" || pyStrip v == "0" then
      total + (if pyStrip v == "1" then 1 else 0)
    else total
  | _ => total

/-- `_calculate_score_from_binary_fields`: scan every entry whose
`analyzed_value` is a string; if its stripped form is `"1"` or `"0"`,
add its integer value to the total.  Non-string, absent and other-string
values contribute nothing. -/
def calculateScoreFromBinaryFields (filledData : List (String × AValue)) : Int :=
  filledData.foldl calcScoreStep 0

/-- The number of entries whose string value strips to `"1"` (a
specification-style recount of the aggregate, proved equal to the fold). -/
def countBinaryOnes (filledData : List (String × AValue)) : Nat :=
  (filledData.filter (fun p =>
    match p.2 with
    | .str v => pyStrip v == "1"
    | _ => false)).length

/-- Modelled from the spec: the aggregation the specification describes,
which counts only values whose RAW string (before any stripping) is exactly
`"1"` (`"0"`-valued fields add zero).  Used to compare the code's stripping
behaviour against the spec's wording. -/
def specRawBinaryScore (filledData : List (String × AValue)) : Int :=
  filledData.foldl (fun total p =>
    match p.2 with
    | .str v =>
      if v == "1" || v == "0" then total + (if v == "1" then 1 else 0)
      else total
    | _ => total) 0

/-! ## Deduplication ledger (`processed_files_tracker.py`) -/

/-- A ledger entry, as written by `mark_as_processed`. -/
structure LedgerEntry where
  fileName : String
  processedAt : String
  success : Bool
  error : Option String
  rowNumber : Option Nat
deriving DecidableEq

/-- The state of the persisted ledger file as seen by `load_history`:
missing, present but unreadable/unparsable (the `except` branch), or
successfully parsed into entries. -/
inductive LedgerFile where
  | absent
  | unreadable
  | ok (entries : List (String × LedgerEntry))

/-- `ProcessedFilesTracker.load_history`: a missing file starts a fresh
history; a read/parse failure is swallowed and also resets the history to
the empty mapping. -/
def load_history : LedgerFile → List (String × LedgerEntry)
  | .absent => []
  | .unreadable => []
  | .ok entries => entries

/-- `ProcessedFilesTracker.is_processed`: membership in the in-memory map. -/
def is_processed (processedFiles : List (String × LedgerEntry))
    (fileId : String) : Bool :=
  (lookupA processedFiles fileId).isSome

/-! ## Local-workbook schema read (`excel_reader.py`, `read_data`) -/

/-- The header-collection loop of `read_data`: scan columns `1..max_column`
left to right, collecting `str(header).strip()` and stopping at the first
column whose header cell is absent (`None`).  The first argument of the
recursion is the remaining column budget (`max_column` at the start). -/
def collectHeadersAux (ws : Worksheet) (headerRow : Nat) : Nat → Nat → List String
  | 0, _ => []
  | fuel+1, col =>
    match ws.cells headerRow col with
    | some v => pyStrip (pyStrCV v) :: collectHeadersAux ws headerRow fuel (col+1)
    | Option.none => []

def headerValuesXl (ws : Worksheet) (headerRow : Nat) : List String :=
  collectHeadersAux ws headerRow ws.nCols 1

/-- One step of the duplicate-key resolution in `read_data`: a repeated
header receives the suffix `_{count}` where `count` is its incremented
occurrence counter. -/
def dedupStep : List String × List (String × Nat) → String → List String × List (String × Nat)
  | (out, counts), key =>
    match lookupA counts key with
    | some c => (out ++ [key ++ "_" ++ natToString (c+1)], insertAssoc counts key (c+1))
    | Option.none => (out ++ [key], insertAssoc counts key 1)

/-- The `unique_key` sequence `read_data` produces from the header list. -/
def dedupKeys (headers : List String) : List String :=
  (headers.foldl dedupStep ([], [])).1

/-- The `keys_dict` construction: insert each unique key in order, mapped to
its 0-based column position (standing for `data_values[i]`); a colliding key
overwrites the earlier entry, exactly as the Python dict assignment does. -/
def buildKeysDictAux : List String → Nat → List (String × Nat) → List (String × Nat)
  | [], _, m => m
  | k :: ks, i, m => buildKeysDictAux ks (i+1) (insertAssoc m k i)

def buildKeysDict (uniqueKeys : List String) : List (String × Nat) :=
  buildKeysDictAux uniqueKeys 0 []

/-- The schema mapping returned by the local reader, at the key/column
level. -/
def readDataXlKeys (ws : Worksheet) (headerRow : Nat) : List (String × Nat) :=
  buildKeysDict (dedupKeys (headerValuesXl ws headerRow))

/-! ## Cloud schema read (`google_sheets_handler.py`, `read_data`) -/

/-- A field record produced by the cloud reader. -/
structure GsFieldInfo where
  column : Nat
  description : String
  ftype : String
  dropdownOptions : Option (List String)
deriving DecidableEq

/-- The record the cloud reader builds for column index `i` (0-based):
1-based column number, the sample-row value as description, and the dropdown
options found by `_read_dropdown_options` (a truthy option list makes the
field a dropdown). -/
def mkGsInfo (dataValues : List String) (dropdownMap : List (Nat × List String))
    (i : Nat) : GsFieldInfo :=
  ⟨i + 1, dataValues.getD i "",
   (match lookupA dropdownMap (i + 1) with
    | some (_ :: _) => "dropdown"
    | _ => "text"),
   lookupA dropdownMap (i + 1)⟩

/-- One iteration of the cloud reader's header loop: a blank header is
skipped (the scan does not stop), a non-blank one is inserted into the
result dict (a repeated field name overwrites the earlier entry). -/
def readDataGsStep (dataValues : List String) (dropdownMap : List (Nat × List String))
    (res : List (String × GsFieldInfo)) (p : Nat × String) : List (String × GsFieldInfo) :=
  if pyStrip p.2 ≠ "" then
    insertAssoc res (pyStrip p.2) (mkGsInfo dataValues dropdownMap p.1)
  else res

/-- `GoogleSheetsHandler.read_data`: iterate over every header of the header
row.  `dropdownMap` stands for the result of `_read_dropdown_options`. -/
def readDataGs (allValues : List (List String)) (dropdownMap : List (Nat × List String))
    (headerRow dataRow : Nat) : List (String × GsFieldInfo) :=
  if allValues.length < max headerRow dataRow then []
  else
    let headers := allValues.getD (headerRow - 1) []
    let dataValues := if allValues.length ≥ dataRow then allValues.getD (dataRow - 1) [] else []
    headers.enum.foldl (readDataGsStep dataValues dropdownMap) []

/-! ## Local-workbook writer (`excel_writer.py`) -/

/-- `_should_skip_field`: skip when the field name contains a score keyword,
or when the destination cell holds a string containing the skip marker, or a
string starting with `=` (a formula). -/
def shouldSkipField (ws : Worksheet) (fieldName : String) (targetRow colNum : Nat) : Bool :=
  if containsSub (myLower fieldName) "оцінка" || containsSub (myLower fieldName) "оценка" then
    true
  else
    match ws.cells targetRow colNum with
    | some (.s v) =>
      if v ≠ "" && (containsSub (myLower v) "пропускаємо" || containsSub (myLower v) "пропускаем") then
        true
      else v ≠ "" && startsWithChar v '='
    | _ => false

/-- One column of the header-map construction in `write_data_to_row`:
a truthy header cell maps `str(header).strip()` to its column number. -/
def headerStep (ws : Worksheet) (headerRow : Nat)
    (m : List (String × Nat)) (c : Nat) : List (String × Nat) :=
  match ws.cells headerRow (c+1) with
  | some v =>
    if truthyCV (some v) then insertAssoc m (pyStrip (pyStrCV v)) (c+1) else m
  | Option.none => m

/-- The header map built at the top of `write_data_to_row`: every truthy
header cell of columns `1..max_column` maps `str(header).strip()` to its
column number (later duplicates overwrite the dict value). -/
def headerMapXl (ws : Worksheet) (headerRow : Nat) : List (String × Nat) :=
  (List.range ws.nCols).foldl (headerStep ws headerRow) []

/-- `value_to_write is not None and value_to_write != ""` for a present
value. -/
def writableCV : CellVal → Bool
  | .s v => v ≠ ""
  | .n _ => true

/-- The main field-writing loop of `write_data_to_row`: for every data entry
found in the header map, the skip rule is consulted against the current
sheet state; a non-`None`, non-empty value is written and counted.
(`_apply_conditional_formatting` only changes cell fills, which this value
level model does not carry.) -/
def writeFieldsLoop (hm : List (String × Nat)) (targetRow : Nat) :
    Worksheet → Nat → List (String × Option CellVal) → Worksheet × Nat
  | ws, cnt, [] => (ws, cnt)
  | ws, cnt, (name, av) :: rest =>
    match lookupA hm name with
    | some col =>
      if shouldSkipField ws name targetRow col then
        writeFieldsLoop hm targetRow ws cnt rest
      else
        match av with
        | some v =>
          if writableCV v then
            writeFieldsLoop hm targetRow (setCell ws targetRow col (some v)) (cnt+1) rest
          else writeFieldsLoop hm targetRow ws cnt rest
        | Option.none => writeFieldsLoop hm targetRow ws cnt rest
    | Option.none => writeFieldsLoop hm targetRow ws cnt rest

/-- Python `os.path.basename` (POSIX separators, which is what the program
uses). -/
def pyBasename (s : String) : String := (splitChar '/' s).getLastD ""

/-- Python `os.path.splitext(...)[0]`: drop the extension at the last dot,
unless every character before that dot is itself a dot. -/
def pySplitextBase (s : String) : String :=
  let l := s.data
  match l.reverse.findIdx? (· == '.') with
  | Option.none => s
  | some ri =>
    let i := l.length - 1 - ri
    if (l.take i).any (fun c => c != '.') then String.mk (l.take i) else s

/-- `os.path.splitext(os.path.basename(filename))[0]`. -/
def cleanFilename (f : String) : String := pySplitextBase (pyBasename f)

/-- The filename-column candidates of `_write_filename_field` (already
lower-case in the source). -/
def filenameCandidates : List String :=
  ["назва файлу", "название файла", "filename", "file name", "файл"]

/-- The nested candidate/header search of `_write_filename_field`: the first
candidate that is a substring of some lower-cased header wins, scanning
headers in map order. -/
def findFilenameTarget (hm : List (String × Nat)) : Option Nat :=
  filenameCandidates.findSome? (fun cand =>
    (hm.find? (fun p => containsSub (myLower p.1) cand)).map Prod.snd)

/-- `_write_filename_field`: write the cleaned file name into the first
matching column and count it as a written field. -/
def writeFilenameField (ws : Worksheet) (hm : List (String × Nat))
    (cleanName : String) (targetRow cnt : Nat) : Worksheet × Nat :=
  match findFilenameTarget hm with
  | some col => (setCell ws targetRow col (some (.s cleanName)), cnt + 1)
  | Option.none => (ws, cnt)

/-- The score keywords of `_update_score_field`. -/
def scoreKeywords : List String := ["оцінка", "оценка", "score", "rating", "бал"]

def matchesScoreKeyword (name : String) : Bool :=
  scoreKeywords.any (fun k => containsSub (myLower name) k)

/-- `_update_score_field`: scan the header map in order; at the first
score-keyword header that is not skip-marked, write `str(total_score)` and
stop; a skip-marked score header lets the scan continue. -/
def updateScoreField (ws : Worksheet) (totalStr : String) (targetRow : Nat) :
    List (String × Nat) → Worksheet × Bool
  | [] => (ws, false)
  | (hname, col) :: rest =>
    if matchesScoreKeyword hname then
      if shouldSkipField ws hname targetRow col then
        updateScoreField ws totalStr targetRow rest
      else (setCell ws targetRow col (some (.s totalStr)), true)
    else updateScoreField ws totalStr targetRow rest

/-- Python `str(...)` applied to an `analyzed_value` slot. -/
def pyStrOpt : Option CellVal → String
  | Option.none => "None"
  | some v => pyStrCV v

/-- `ExcelDataWriter.write_data_to_row`: header map, field loop, optional
filename autofill, optional `_total_score` score-field autofill; the
returned flag is `written_fields > 0`. -/
def writeDataToRowXl (ws : Worksheet) (data : List (String × Option CellVal))
    (targetRow headerRow : Nat) (filename : Option String) : Worksheet × Bool :=
  let hm := headerMapXl ws headerRow
  let r1 := writeFieldsLoop hm targetRow ws 0 data
  let r2 := match filename with
    | some f => writeFilenameField r1.1 hm (cleanFilename f) targetRow r1.2
    | Option.none => r1
  let ws3 := match lookupA data "_total_score" with
    | some av => (updateScoreField r2.1 (pyStrOpt av) targetRow hm).1
    | Option.none => r2.1
  (ws3, decide (r2.2 > 0))

/-- The row-emptiness test of `ExcelDataWriter.find_next_empty_row`: every
cell of columns `1..max_column` must be `None` or blank after stripping. -/
def rowEmptyXl (ws : Worksheet) (r : Nat) : Bool :=
  (List.range ws.nCols).all (fun c => cellBlank (ws.cells r (c+1)))

/-- The scan loop of `find_next_empty_row`: try `fuel` consecutive rows from
`row`; when the range is exhausted fall back to `max_row + 1`. -/
def firstEmptyXlFrom (ws : Worksheet) : Nat → Nat → Nat
  | _, 0 => ws.nRows + 1
  | row, fuel+1 => if rowEmptyXl ws row then row else firstEmptyXlFrom ws (row+1) fuel

/-- `ExcelDataWriter.find_next_empty_row`: scan rows
`header_row+1 .. max_row+1` and return the first empty one
(`max_row + 1` when all are filled). -/
def findNextEmptyRowXl (ws : Worksheet) (headerRow : Nat) : Nat :=
  firstEmptyXlFrom ws (headerRow + 1) (ws.nRows + 2 - (headerRow + 1))

/-! ## Cloud writer (`google_sheets_handler.py`) -/

/-- The cloud value grid, as returned by `get_all_values` (1-based access
through `cellGs`; absent cells read as the empty string). -/
def cellGs (g : List (List String)) (r c : Nat) : String :=
  (g.getD (r-1) []).getD (c-1) ""

def padList {α : Type} (l : List α) (n : Nat) (d : α) : List α :=
  l ++ List.replicate (n - l.length) d

/-- Write one cell of the cloud grid (a batched `values` update), growing
the stored grid as needed. -/
def setCellGs (g : List (List String)) (r c : Nat) (v : String) : List (List String) :=
  let g2 := padList g r ([] : List String)
  g2.set (r-1) ((padList (g2.getD (r-1) []) c "").set (c-1) v)

/-- The row-emptiness test of `GoogleSheetsHandler.find_next_empty_row`:
only the first five cells of the row are inspected. -/
def rowEmptyGs (row : List String) : Bool :=
  (row.take 5).all (fun cell => pyStrip cell == "")

/-- The scan loop of the cloud `find_next_empty_row` (`row_idx` is 0-based;
an empty row yields `row_idx + 1`, exhaustion yields `len(all_values) + 1`). -/
def firstEmptyGsFrom (g : List (List String)) : Nat → Nat → Nat
  | _, 0 => g.length + 1
  | rowIdx, fuel+1 =>
    if rowEmptyGs (g.getD rowIdx []) then rowIdx + 1
    else firstEmptyGsFrom g (rowIdx+1) fuel

/-- `GoogleSheetsHandler.find_next_empty_row` (default `start_row = 4`). -/
def findNextEmptyRowGs (g : List (List String)) (startRow : Nat) : Nat :=
  firstEmptyGsFrom g (startRow - 1) (g.length - (startRow - 1))

/-- The value-level effect of `_copy_entire_row`: its final `updateCells`
request clears every `userEnteredValue` of the target row (formatting and
validation, which it copies, are not part of this value model). -/
def clearRowGs (g : List (List String)) (r : Nat) : List (List String) :=
  if r ≤ g.length then g.set (r-1) [] else g

/-- The header map of the cloud `write_data_to_row`. -/
def headerMapGs (headers : List String) : List (String × Nat) :=
  headers.enum.foldl (fun m p =>
    if pyStrip p.2 ≠ "" then insertAssoc m (pyStrip p.2) (p.1 + 1) else m) []

def gsFilenameFieldNames : List String := ["Назва файлу", "Файл", "Filename"]

def gsTranscriptFieldNames : List String :=
  ["Транскрипт", "Транскрипція", "Текст", "Transcript"]

def gsScoreFieldNames : List String := ["Оцінка", "Загальний бал", "Сума", "Total"]

/-- The score formula written for the score column. -/
def gsScoreFormula (r : Nat) : String :=
  "=F" ++ natToString r ++ "+G" ++ natToString r ++ "+H" ++ natToString r ++
  "+I" ++ natToString r ++ "+J" ++ natToString r ++ "+K" ++ natToString r ++
  "+M" ++ natToString r ++ "+O" ++ natToString r

def takeChars (n : Nat) (s : String) : String := String.mk (s.data.take n)

/-- `GoogleSheetsHandler.write_data_to_row` at the value level: locate the
target row (or take the given one), clear the target row's values while
copying the template row's formatting, then write every data field found in
the header map (no skip rule of any kind), the filename, the (possibly
truncated) transcript, and finally the score formula.  Data values arrive as
strings (`Dict[str, str]`), so `str(value)` is the identity. -/
def writeDataToRowGs (g : List (List String)) (data : List (String × String))
    (targetRow? : Option Nat) (headerRow : Nat)
    (filename? transcript? : Option String) : List (List String) :=
  let targetRow := match targetRow? with
    | some r => r
    | Option.none => findNextEmptyRowGs g 4
  let g1 := clearRowGs g targetRow
  let hm := headerMapGs (g1.getD (headerRow - 1) [])
  let g2 := data.foldl (fun gg p =>
    match lookupA hm p.1 with
    | some col => setCellGs gg targetRow col p.2
    | Option.none => gg) g1
  let g3 := match filename? with
    | some fn =>
      match gsFilenameFieldNames.findSome? (fun cand => lookupA hm cand) with
      | some col => setCellGs g2 targetRow col fn
      | Option.none => g2
    | Option.none => g2
  let g4 := match transcript? with
    | some t =>
      match gsTranscriptFieldNames.findSome? (fun cand => lookupA hm cand) with
      | some col =>
        setCellGs g3 targetRow col (if t.data.length > 50000 then takeChars 50000 t else t)
      | Option.none => g3
    | Option.none => g3
  match gsScoreFieldNames.findSome? (fun cand => lookupA hm cand) with
  | some col => setCellGs g4 targetRow col (gsScoreFormula targetRow)
  | Option.none => g4

/-! ## Specification-side definitions (for refinement comparisons) -/

/-- Modelled from the spec: the case-insensitive second matching attempt the
specification prescribes for choice-field validation ("on mismatch, attempt
a case-insensitive match"): the first option equal to the value after
lower-casing both. -/
def caseInsensitiveMatch (opts : List String) (value : String) : Option String :=
  opts.find? (fun o => myLower o == myLower value)

/-- A concrete workbook for exercising the local writer's skip rule: header
`B` in row 2 column 1, and a formula string `=1` in the target cell
(3, 1). -/
def skipWS : Worksheet :=
  ⟨fun r c =>
    if r = 2 ∧ c = 1 then some (CellVal.s "B")
    else if r = 3 ∧ c = 1 then some (CellVal.s "=1")
    else Option.none, 3, 1⟩

/-- A concrete workbook with a single header `score` in row 2 column 1 and
an otherwise empty grid. -/
def scoreWS : Worksheet :=
  ⟨fun r c => if r = 2 ∧ c = 1 then some (CellVal.s "score") else Option.none, 2, 1⟩

/-! ## General lemmas about the helper definitions -/

theorem natToCharsAux_append (fuel : Nat) :
    ∀ (n : Nat) (acc : List Char),
      natToCharsAux fuel n acc = natToCharsAux fuel n [] ++ acc := by
  induction fuel with
  | zero => intro n acc; simp [natToCharsAux]
  | succ f ih =>
    intro n acc
    by_cases h : n < 10
    · simp [natToCharsAux, h]
    · simp only [natToCharsAux, if_neg h]
      rw [ih (n / 10) (digitChar (n % 10) :: acc),
          ih (n / 10) (digitChar (n % 10) :: [])]
      simp

theorem natToCharsAux_fuel (f : Nat) :
    ∀ (g n : Nat) (acc : List Char), n < f → n < g →
      natToCharsAux f n acc = natToCharsAux g n acc := by
  induction f with
  | zero => intro g n acc h; omega
  | succ f ih =>
    intro g n acc hf hg
    match g with
    | 0 => omega
    | g+1 =>
      by_cases h : n < 10
      · simp [natToCharsAux, h]
      · simp only [natToCharsAux, if_neg h]
        have hn : 0 < n := by omega
        have hd : n / 10 < n := Nat.div_lt_self hn (by omega)
        exact ih g (n / 10) _ (by omega) (by omega)

theorem charsToNat_append_single (l : List Char) (c : Char) :
    charsToNat (l ++ [c]) = charsToNat l * 10 + (c.toNat - 48) := by
  simp [charsToNat, List.foldl_append]

theorem digitChar_toNat : ∀ d : Nat, d < 10 → (digitChar d).toNat - 48 = d := by
  decide

theorem digitChar_isDigit (d : Nat) : (digitChar d).isDigit = true := by
  simp only [digitChar]
  split_ifs <;> decide

theorem charsToNat_natToString (n : Nat) :
    charsToNat (natToString n).data = n := by
  induction n using Nat.strong_induction_on with
  | _ n ih =>
    by_cases h : n < 10
    · simp only [natToString, natToCharsAux, if_pos h]
      show charsToNat [digitChar (n % 10)] = n
      have : n % 10 = n := Nat.mod_eq_of_lt h
      simp [charsToNat, this, digitChar_toNat n h]
    · have hn : 0 < n := by omega
      have hd : n / 10 < n := Nat.div_lt_self hn (by omega)
      simp only [natToString, natToCharsAux, if_neg h]
      show charsToNat (natToCharsAux n (n / 10) [digitChar (n % 10)]) = n
      rw [natToCharsAux_append]
      rw [natToCharsAux_fuel n (n / 10 + 1) (n / 10) [] (by omega) (by omega)]
      have hrec : charsToNat (natToCharsAux (n / 10 + 1) (n / 10) []) = n / 10 := by
        have := ih (n / 10) hd
        simpa [natToString] using this
      rw [charsToNat_append_single, hrec]
      have hm : (digitChar (n % 10)).toNat - 48 = n % 10 :=
        digitChar_toNat (n % 10) (Nat.mod_lt n (by omega))
      rw [hm]
      omega

theorem natToString_inj {a b : Nat} (h : natToString a = natToString b) : a = b := by
  have := congrArg (fun s => charsToNat s.data) h
  simpa [charsToNat_natToString] using this

theorem natToCharsAux_digits (fuel : Nat) :
    ∀ (n : Nat) (acc : List Char),
      (∀ c ∈ acc, c.isDigit = true) →
      ∀ c ∈ natToCharsAux fuel n acc, c.isDigit = true := by
  induction fuel with
  | zero => intro n acc hacc; simpa [natToCharsAux] using hacc
  | succ f ih =>
    intro n acc hacc
    by_cases h : n < 10
    · simp only [natToCharsAux, if_pos h]
      intro c hc
      rcases List.mem_cons.mp hc with h1 | h2
      · subst h1; exact digitChar_isDigit _
      · exact hacc c h2
    · simp only [natToCharsAux, if_neg h]
      apply ih
      intro c hc
      rcases List.mem_cons.mp hc with h1 | h2
      · subst h1; exact digitChar_isDigit _
      · exact hacc c h2

theorem natToString_digits (n : Nat) :
    ∀ c ∈ (natToString n).data, c.isDigit = true := by
  simpa [natToString] using
    natToCharsAux_digits (n+1) n [] (by intro c hc; simp at hc)

theorem natToString_no_underscore (n : Nat) : '_' ∉ (natToString n).data := by
  intro hmem
  have := natToString_digits n '_' hmem
  simp [Char.isDigit] at this

/-! ## Underscore-splitting facts (used for header de-duplication) -/

theorem string_data_append (a b : String) : (a ++ b).data = a.data ++ b.data := rfl

theorem string_data_inj {a b : String} (h : a.data = b.data) : a = b := by
  cases a
  cases b
  exact congrArg String.mk h

theorem underscore_split_chars :
    ∀ (l1 l2 r1 r2 : List Char), '_' ∉ l1 → '_' ∉ l2 →
      l1 ++ '_' :: r1 = l2 ++ '_' :: r2 → l1 = l2 ∧ r1 = r2 := by
  intro l1
  induction l1 with
  | nil =>
    intro l2 r1 r2 _ h2 heq
    match l2 with
    | [] => simpa using heq
    | y :: ys =>
      simp only [List.nil_append, List.cons_append, List.cons.injEq] at heq
      have hmem : ('_' : Char) ∈ y :: ys := by
        rw [heq.1]
        exact List.mem_cons_self y ys
      exact absurd hmem h2
  | cons x xs ih =>
    intro l2 r1 r2 h1 h2 heq
    match l2 with
    | [] =>
      simp only [List.nil_append, List.cons_append, List.cons.injEq] at heq
      have hmem : ('_' : Char) ∈ x :: xs := by
        rw [← heq.1]
        exact List.mem_cons_self x xs
      exact absurd hmem h1
    | y :: ys =>
      simp only [List.cons_append, List.cons.injEq] at heq
      have hxs : '_' ∉ xs := fun h => h1 (List.mem_cons_of_mem x h)
      have hys : '_' ∉ ys := fun h => h2 (List.mem_cons_of_mem y h)
      have hih := ih ys r1 r2 hxs hys heq.2
      exact ⟨by rw [heq.1, hih.1], hih.2⟩

theorem suffix_name_inj (k k' : String) (m m' : Nat)
    (hk : '_' ∉ k.data) (hk' : '_' ∉ k'.data)
    (h : k ++ "_" ++ natToString m = k' ++ "_" ++ natToString m') :
    k = k' ∧ m = m' := by
  have hd := congrArg String.data h
  simp only [string_data_append] at hd
  have hd2 : k.data ++ '_' :: (natToString m).data
      = k'.data ++ '_' :: (natToString m').data := by
    simpa using hd
  have := underscore_split_chars k.data k'.data _ _ hk hk' hd2
  refine ⟨string_data_inj this.1, natToString_inj (string_data_inj this.2)⟩

theorem lookupA_insertAssoc_self {α β : Type} [DecidableEq α] (m : List (α × β)) (k : α) (v : β) :
    lookupA (insertAssoc m k v) k = some v := by
  induction m with
  | nil => simp [insertAssoc, lookupA]
  | cons p rest ih =>
    obtain ⟨k', v'⟩ := p
    by_cases h : k' = k
    · simp [insertAssoc, lookupA, h]
    · simp [insertAssoc, lookupA, h, ih]

theorem lookupA_insertAssoc_ne {α β : Type} [DecidableEq α] (m : List (α × β)) (k k' : α) (v : β)
    (h : k' ≠ k) : lookupA (insertAssoc m k v) k' = lookupA m k' := by
  induction m with
  | nil => simp [insertAssoc, lookupA, if_neg (Ne.symm h)]
  | cons p rest ih =>
    obtain ⟨k0, v0⟩ := p
    by_cases h0 : k0 = k
    · subst h0
      simp only [insertAssoc, if_pos rfl, lookupA]
      rw [if_neg (Ne.symm h), if_neg (Ne.symm h)]
    · simp only [insertAssoc, if_neg h0, lookupA]
      by_cases h1 : k0 = k'
      · simp [h1]
      · simp [h1, ih]

theorem lookupA_isSome_insertAssoc {α β : Type} [DecidableEq α] (m : List (α × β)) (k k' : α) (v : β)
    (h : (lookupA m k').isSome) : (lookupA (insertAssoc m k v) k').isSome := by
  by_cases hk : k' = k
  · subst hk; simp [lookupA_insertAssoc_self]
  · rw [lookupA_insertAssoc_ne m k k' v hk]; exact h

theorem mem_insertAssoc {α β : Type} [DecidableEq α] {m : List (α × β)} {k : α} {v : β}
    {p : α × β} (h : p ∈ insertAssoc m k v) : p = (k, v) ∨ p ∈ m := by
  induction m with
  | nil => simp [insertAssoc] at h; simp [h]
  | cons q rest ih =>
    obtain ⟨k0, v0⟩ := q
    by_cases h0 : k0 = k
    · subst h0
      simp only [insertAssoc, if_pos rfl] at h
      rcases List.mem_cons.mp h with h1 | h2
      · left; exact h1
      · right; exact List.mem_cons_of_mem _ h2
    · simp only [insertAssoc, if_neg h0] at h
      rcases List.mem_cons.mp h with h1 | h2
      · right; exact h1 ▸ List.mem_cons_self _ _
      · rcases ih h2 with h3 | h4
        · left; exact h3
        · right; exact List.mem_cons_of_mem _ h4

theorem lookupA_mem {α β : Type} [DecidableEq α] {m : List (α × β)} {k : α} {v : β}
    (h : lookupA m k = some v) : (k, v) ∈ m := by
  induction m with
  | nil => simp [lookupA] at h
  | cons p rest ih =>
    obtain ⟨k0, v0⟩ := p
    simp only [lookupA] at h
    split at h
    · next heq =>
      injection h with hv
      rw [← heq, ← hv]
      exact List.mem_cons_self _ _
    · exact List.mem_cons_of_mem _ (ih h)

theorem mem_lookupA_of_nodup {α β : Type} [DecidableEq α] {m : List (α × β)} {k : α} {v : β}
    (hnd : (m.map Prod.fst).Nodup) (h : (k, v) ∈ m) : lookupA m k = some v := by
  induction m with
  | nil => simp at h
  | cons p rest ih =>
    obtain ⟨k0, v0⟩ := p
    simp only [List.map_cons, List.nodup_cons] at hnd
    rcases List.mem_cons.mp h with h1 | h2
    · have hk : k = k0 := congrArg Prod.fst h1
      have hv : v = v0 := congrArg Prod.snd h1
      simp only [lookupA, if_pos hk.symm]
      exact congrArg some hv.symm
    · by_cases h0 : k0 = k
      · subst h0
        exact absurd (List.mem_map.mpr ⟨(k0, v), h2, rfl⟩) hnd.1
      · simp only [lookupA, if_neg h0]
        exact ih hnd.2 h2

theorem insertAssoc_length_absent {α β : Type} [DecidableEq α] (m : List (α × β)) (k : α) (v : β)
    (h : lookupA m k = Option.none) :
    (insertAssoc m k v).length = m.length + 1 := by
  induction m with
  | nil => simp [insertAssoc]
  | cons p rest ih =>
    obtain ⟨k0, v0⟩ := p
    by_cases h0 : k0 = k
    · simp [lookupA, h0] at h
    · simp only [lookupA, if_neg h0] at h
      simp [insertAssoc, if_neg h0, ih h]

theorem setCell_cells_self (ws : Worksheet) (r c : Nat) (v : Option CellVal) :
    (setCell ws r c v).cells r c = v := by
  simp [setCell]

theorem setCell_cells_ne (ws : Worksheet) (r c r' c' : Nat) (v : Option CellVal)
    (h : r' ≠ r ∨ c' ≠ c) : (setCell ws r c v).cells r' c' = ws.cells r' c' := by
  rcases h with h | h <;> simp [setCell, h]

theorem setCell_nRows (ws : Worksheet) (r c : Nat) (v : Option CellVal) :
    (setCell ws r c v).nRows = max ws.nRows r := rfl

theorem setCell_nCols (ws : Worksheet) (r c : Nat) (v : Option CellVal) :
    (setCell ws r c v).nCols = max ws.nCols c := rfl

theorem insertAssoc_length_present {α β : Type} [DecidableEq α] (m : List (α × β)) (k : α) (v v0 : β)
    (h : lookupA m k = some v0) :
    (insertAssoc m k v).length = m.length := by
  induction m with
  | nil => simp [lookupA] at h
  | cons p rest ih =>
    obtain ⟨k1, v1⟩ := p
    by_cases h0 : k1 = k
    · simp [insertAssoc, h0]
    · simp only [lookupA, if_neg h0] at h
      simp [insertAssoc, if_neg h0, ih h]

theorem lookupA_append {α β : Type} [DecidableEq α] (a b : List (α × β)) (k : α) :
    lookupA (a ++ b) k = match lookupA a k with
      | some v => some v
      | Option.none => lookupA b k := by
  induction a with
  | nil => simp [lookupA]
  | cons p rest ih =>
    obtain ⟨k0, v0⟩ := p
    by_cases h : k0 = k
    · simp [lookupA, h]
    · simp [lookupA, h, ih]

theorem lookupA_singleton {α β : Type} [DecidableEq α] (a : α) (b : β) (k : α) :
    lookupA [(a, b)] k = if a = k then some b else Option.none := by
  simp [lookupA]

theorem fillMissingDropdown_cons (q : String × List String)
    (rest : List (String × List String)) (acc : List (String × String)) :
    fillMissingDropdown (q :: rest) acc =
      fillMissingDropdown rest (match lookupA acc q.1 with
        | some _ => acc
        | Option.none => acc ++ [(q.1, dropdownFallback q.2)]) := rfl

theorem fillMissingDropdown_isSome_mono (fields : List (String × List String)) :
    ∀ (acc : List (String × String)) (k : String),
      (lookupA acc k).isSome →
      (lookupA (fillMissingDropdown fields acc) k).isSome := by
  induction fields with
  | nil => intro acc k h; exact h
  | cons q rest ih =>
    intro acc k h
    rw [fillMissingDropdown_cons]
    cases hq : lookupA acc q.1 with
    | some w => simpa [hq] using ih acc k h
    | none =>
      simp only [hq]
      apply ih
      rw [lookupA_append]
      cases hk : lookupA acc k with
      | some w => simp
      | none => rw [hk] at h; simp at h

theorem fillMissingDropdown_covers (fields : List (String × List String)) :
    ∀ (acc : List (String × String)) (p : String × List String), p ∈ fields →
      (lookupA (fillMissingDropdown fields acc) p.1).isSome := by
  induction fields with
  | nil => intro acc p hp; simp at hp
  | cons q rest ih =>
    intro acc p hp
    rw [fillMissingDropdown_cons]
    rcases List.mem_cons.mp hp with h | h
    · subst h
      cases hq : lookupA acc p.1 with
      | some w =>
        simp only [hq]
        exact fillMissingDropdown_isSome_mono rest acc p.1 (by simp [hq])
      | none =>
        simp only [hq]
        apply fillMissingDropdown_isSome_mono
        rw [lookupA_append, hq, lookupA_singleton, if_pos rfl]
        simp
    · cases hq : lookupA acc q.1 <;> simp only [hq] <;> exact ih _ p h

theorem fillMissingDropdown_lookup (fields : List (String × List String)) :
    ∀ (acc : List (String × String)) (k v : String),
      lookupA (fillMissingDropdown fields acc) k = some v →
      lookupA acc k = some v ∨ ∃ opts, (k, opts) ∈ fields ∧ v = dropdownFallback opts := by
  induction fields with
  | nil => intro acc k v h; left; exact h
  | cons q rest ih =>
    obtain ⟨q1, q2⟩ := q
    intro acc k v h
    rw [fillMissingDropdown_cons] at h
    cases hq : lookupA acc q1 with
    | some w =>
      simp only [hq] at h
      rcases ih acc k v h with h1 | ⟨opts, hm, hv⟩
      · left; exact h1
      · right; exact ⟨opts, List.mem_cons_of_mem _ hm, hv⟩
    | none =>
      simp only [hq] at h
      rcases ih _ k v h with h1 | ⟨opts, hm, hv⟩
      · rw [lookupA_append] at h1
        cases hk : lookupA acc k with
        | some w =>
          simp only [hk] at h1
          left
          exact h1
        | none =>
          simp only [hk] at h1
          rw [lookupA_singleton] at h1
          split at h1
          · next heq =>
            injection h1 with hv
            right
            refine ⟨q2, ?_, hv.symm⟩
            rw [← heq]
            exact List.mem_cons_self _ _
          · simp at h1
      · right; exact ⟨opts, List.mem_cons_of_mem _ hm, hv⟩

theorem fillMissingText_cons (n : String) (rest : List String)
    (acc : List (String × String)) :
    fillMissingText (n :: rest) acc =
      fillMissingText rest (match lookupA acc n with
        | some _ => acc
        | Option.none => acc ++ [(n, "Не вказано")]) := rfl

theorem fillMissingText_isSome_mono (names : List String) :
    ∀ (acc : List (String × String)) (k : String),
      (lookupA acc k).isSome →
      (lookupA (fillMissingText names acc) k).isSome := by
  induction names with
  | nil => intro acc k h; exact h
  | cons n rest ih =>
    intro acc k h
    rw [fillMissingText_cons]
    cases hq : lookupA acc n with
    | some w => simpa [hq] using ih acc k h
    | none =>
      simp only [hq]
      apply ih
      rw [lookupA_append]
      cases hk : lookupA acc k with
      | some w => simp
      | none => rw [hk] at h; simp at h

theorem fillMissingText_covers (names : List String) :
    ∀ (acc : List (String × String)) (n : String), n ∈ names →
      (lookupA (fillMissingText names acc) n).isSome := by
  induction names with
  | nil => intro acc n hn; simp at hn
  | cons m rest ih =>
    intro acc n hn
    rw [fillMissingText_cons]
    rcases List.mem_cons.mp hn with h | h
    · subst h
      cases hq : lookupA acc n with
      | some w =>
        simp only [hq]
        exact fillMissingText_isSome_mono rest acc n (by simp [hq])
      | none =>
        simp only [hq]
        apply fillMissingText_isSome_mono
        rw [lookupA_append, hq, lookupA_singleton, if_pos rfl]
        simp
    · cases hq : lookupA acc m <;> simp only [hq] <;> exact ih _ n h

theorem lookupA_map_isSome {β γ : Type} (fields : List (String × β))
    (f : String × β → γ) :
    ∀ p ∈ fields, (lookupA (fields.map (fun q => (q.1, f q))) p.1).isSome := by
  induction fields with
  | nil => simp
  | cons q rest ih =>
    intro p hp
    rcases List.mem_cons.mp hp with h | h
    · subst h
      simp [lookupA]
    · by_cases hk : q.1 = p.1
      · simp [lookupA, hk]
      · simp only [List.map_cons, lookupA, if_neg hk]
        exact ih p h

theorem lookupA_map_nodup {β γ : Type} (fields : List (String × β))
    (f : String × β → γ) (hnd : (fields.map Prod.fst).Nodup)
    (p : String × β) (hp : p ∈ fields) :
    lookupA (fields.map (fun q => (q.1, f q))) p.1 = some (f p) := by
  apply mem_lookupA_of_nodup
  · have : (fields.map (fun q => (q.1, f q))).map Prod.fst = fields.map Prod.fst := by
      simp [List.map_map]
    rw [this]
    exact hnd
  · exact List.mem_map.mpr ⟨p, hp, rfl⟩

theorem validateChoice_mem (opts : List String) (value : String) (h : opts ≠ []) :
    validateChoice opts value ∈ opts := by
  unfold validateChoice
  by_cases hc : opts.contains value
  · rw [if_pos hc]
    exact List.mem_of_elem_eq_true hc
  · rw [if_neg hc]
    cases opts with
    | nil => exact absurd rfl h
    | cons o rest => simp [dropdownFallback]

theorem dropdownFallback_mem (opts : List String) (h : opts ≠ []) :
    dropdownFallback opts ∈ opts := by
  cases opts with
  | nil => exact absurd rfl h
  | cons o rest => simp [dropdownFallback]

theorem parseDropdownLine_valid (fields : List (String × List String))
    (mappings : List (Int × String)) (acc : List (String × String)) (line : String)
    (hacc : ∀ k v opts, lookupA acc k = some v → lookupA fields k = some opts →
      opts ≠ [] → v ∈ opts) :
    ∀ k v opts, lookupA (parseDropdownLine fields mappings acc line) k = some v →
      lookupA fields k = some opts → opts ≠ [] → v ∈ opts := by
  intro k v opts h hf hne
  simp only [parseDropdownLine] at h
  split at h
  · split at h
    · rename_i numStr rest heqSplit
      split at h
      · rename_i fieldNum heqInt
        split at h
        · rename_i fieldName heqMap
          split at h
          · rename_i opts0 heqFields
            by_cases hk : k = fieldName
            · subst hk
              rw [lookupA_insertAssoc_self] at h
              injection h with hv
              rw [hf] at heqFields
              injection heqFields with ho
              rw [← hv, ho]
              exact validateChoice_mem opts0 _ (ho ▸ hne)
            · rw [lookupA_insertAssoc_ne _ _ _ _ hk] at h
              exact hacc k v opts h hf hne
          · exact hacc k v opts h hf hne
        · exact hacc k v opts h hf hne
      · exact hacc k v opts h hf hne
    · exact hacc k v opts h hf hne
  · exact hacc k v opts h hf hne

theorem parseDropdownFold_valid (fields : List (String × List String))
    (mappings : List (Int × String)) :
    ∀ (lines : List String) (acc : List (String × String)),
      (∀ k v opts, lookupA acc k = some v → lookupA fields k = some opts →
        opts ≠ [] → v ∈ opts) →
      ∀ k v opts,
        lookupA (lines.foldl (parseDropdownLine fields mappings) acc) k = some v →
        lookupA fields k = some opts → opts ≠ [] → v ∈ opts := by
  intro lines
  induction lines with
  | nil => intro acc hacc; exact hacc
  | cons line rest ih =>
    intro acc hacc
    simp only [List.foldl_cons]
    exact ih _ (parseDropdownLine_valid fields mappings acc line hacc)

theorem analyzeAllDropdownFields_calls_le (r : Option String)
    (fields : List (String × List String)) :
    (analyzeAllDropdownFields r fields).2 ≤ 1 := by
  by_cases h : fields.isEmpty <;> cases r <;> simp [analyzeAllDropdownFields, h]

theorem analyzeAllTextFields_calls_le (r : Option String) (names : List String) :
    (analyzeAllTextFields r names).2 ≤ 1 := by
  by_cases h : names.isEmpty <;> cases r <;> simp [analyzeAllTextFields, h]

theorem lookupA_mapName_isSome (f : String → String) (names : List String) :
    ∀ n ∈ names, (lookupA (names.map (fun m => (m, f m))) n).isSome := by
  induction names with
  | nil => simp
  | cons m rest ih =>
    intro n hn
    rcases List.mem_cons.mp hn with h | h
    · subst h
      simp [lookupA]
    · by_cases hk : m = n
      · simp [lookupA, hk]
      · simp only [List.map_cons, lookupA, if_neg hk]
        exact ih n h

theorem analyzeAllDropdownFields_isSome (r : Option String)
    (fields : List (String × List String)) (p : String × List String)
    (hp : p ∈ fields) :
    (lookupA (analyzeAllDropdownFields r fields).1 p.1).isSome := by
  have hfe : fields.isEmpty = false := by
    cases fields with
    | nil => simp at hp
    | cons q rest => simp
  cases r with
  | none =>
    simp only [analyzeAllDropdownFields, hfe, Bool.false_eq_true, if_false]
    exact lookupA_map_isSome fields _ p hp
  | some text =>
    simp only [analyzeAllDropdownFields, hfe, Bool.false_eq_true, if_false]
    exact fillMissingDropdown_covers fields _ p hp

theorem analyzeAllTextFields_isSome (r : Option String)
    (names : List String) (n : String) (hn : n ∈ names) :
    (lookupA (analyzeAllTextFields r names).1 n).isSome := by
  have hfe : names.isEmpty = false := by
    cases names with
    | nil => simp at hn
    | cons m rest => simp
  cases r with
  | none =>
    simp only [analyzeAllTextFields, hfe, Bool.false_eq_true, if_false]
    exact lookupA_mapName_isSome _ names n hn
  | some text =>
    simp only [analyzeAllTextFields, hfe, Bool.false_eq_true, if_false]
    exact fillMissingText_covers names _ n hn

/-! ## Claim theorems -/

/-- Claim C1: for every transcript and field schema, the field-extraction
step of `fill_excel_data` issues at most 2 generation calls regardless of
the number of fields — one batched call covers all dropdown fields and one
covers all text fields (every partitioned field receives an entry in the
corresponding batch result). -/
theorem fill_excel_data_extraction_call_bound :
    ∀ (fs : List (String × Option FieldInfo)) (respDropdown respText : Option String),
      fillExcelDataExtractionCalls fs respDropdown respText ≤ 2 ∧
      (∀ p ∈ (partitionFields fs).1,
        (lookupA (fillExcelDataExtraction fs respDropdown respText).1.1 p.1).isSome) ∧
      (∀ p ∈ (partitionFields fs).2,
        (lookupA (fillExcelDataExtraction fs respDropdown respText).2.1 p.1).isSome) := by
  intro fs rd rt
  refine ⟨?_, ?_, ?_⟩
  · have h1 := analyzeAllDropdownFields_calls_le rd
      ((partitionFields fs).1.map (fun p => (p.1, p.2.dropdownOptions)))
    have h2 := analyzeAllTextFields_calls_le rt ((partitionFields fs).2.map Prod.fst)
    simp only [fillExcelDataExtractionCalls, fillExcelDataExtraction]
    omega
  · intro p hp
    have hm : (p.1, p.2.dropdownOptions)
        ∈ (partitionFields fs).1.map (fun q => (q.1, q.2.dropdownOptions)) :=
      List.mem_map.mpr ⟨p, hp, rfl⟩
    have h := analyzeAllDropdownFields_isSome rd _ (p.1, p.2.dropdownOptions) hm
    simpa [fillExcelDataExtraction] using h
  · intro p hp
    have hm : p.1 ∈ (partitionFields fs).2.map Prod.fst := List.mem_map.mpr ⟨p, hp, rfl⟩
    have h := analyzeAllTextFields_isSome rt _ p.1 hm
    simpa [fillExcelDataExtraction] using h

/-- Witness for C1 at a concrete schema with one dropdown and one text
field. -/
theorem fill_excel_data_extraction_call_bound_witness :
    fillExcelDataExtractionCalls
      [("A", some (FieldInfo.mk "dropdown" ["x", "y"])), ("B", some (FieldInfo.mk "text" []))]
      (some "1: x") (some "1: ok") ≤ 2 :=
  (fill_excel_data_extraction_call_bound
    [("A", some (FieldInfo.mk "dropdown" ["x", "y"])), ("B", some (FieldInfo.mk "text" []))]
    (some "1: x") (some "1: ok")).1

/-- Claim C2: when the performance-evaluation generation call fails,
`_evaluate_manager_performance` returns the zero-initialised evaluation:
total score `0`, empty per-check scores, and `is_performance_good = True`
(it does not raise and does not flag the row for review). -/
theorem evaluate_manager_performance_failure_fallback :
    (evaluateManagerPerformance Option.none).totalScore = 0 ∧
    (evaluateManagerPerformance Option.none).isPerformanceGood = true ∧
    (evaluateManagerPerformance Option.none).scores = [] :=
  ⟨rfl, rfl, rfl⟩

/-- Claim C6 (counterexample): the claimed case-insensitive second matching
attempt does not exist in the code.  For the response value `так` against
the domain `["Ні", "Так"]`, a case-insensitive match would yield `Так`, but
`_analyze_all_dropdown_fields` returns the fallback `choices[0] = Ні`. -/
theorem dropdown_no_case_insensitive_counterexample :
    analyzeAllDropdownFields (some "1: так") [("F", ["Ні", "Так"])] = ([("F", "Ні")], 1) ∧
    caseInsensitiveMatch ["Ні", "Так"] "так" = some "Так" ∧
    ("Ні" : String) ≠ "Так" :=
  ⟨by decide, by decide, by decide⟩

/-- Claim C6 (amended): a model value for a choice field is accepted only on
an exact (case-sensitive) match with the domain; on any mismatch the field
directly receives the fallback `choices[0]` (no case-insensitive attempt is
made).  In every case the value returned for a choice field with a non-empty
domain is an element of the domain. -/
theorem dropdown_choice_validation_amended :
    (∀ (opts : List String) (value : String),
      opts.contains value = true → validateChoice opts value = value) ∧
    (∀ (opts : List String) (value : String),
      opts ≠ [] → validateChoice opts value ∈ opts) ∧
    (∀ (fields : List (String × List String)) (response : Option String)
      (name : String) (opts : List String),
      (fields.map Prod.fst).Nodup → (name, opts) ∈ fields → opts ≠ [] →
      ∃ v, lookupA (analyzeAllDropdownFields response fields).1 name = some v ∧
        v ∈ opts) := by
  refine ⟨?_, ?_, ?_⟩
  · intro opts value h
    unfold validateChoice
    rw [if_pos h]
  · intro opts value h
    exact validateChoice_mem opts value h
  · intro fields response name opts hnd hmem hne
    have hfe : fields.isEmpty = false := by
      cases fields with
      | nil => simp at hmem
      | cons q rest => simp
    cases response with
    | none =>
      simp only [analyzeAllDropdownFields, hfe, Bool.false_eq_true, if_false]
      refine ⟨dropdownFallback opts, ?_, dropdownFallback_mem opts hne⟩
      exact lookupA_map_nodup fields (fun p => dropdownFallback p.2) hnd (name, opts) hmem
    | some text =>
      simp only [analyzeAllDropdownFields, hfe, Bool.false_eq_true, if_false]
      have hcov := fillMissingDropdown_covers fields
        ((splitChar ',' (pyStrip text)).foldl
          (parseDropdownLine fields (buildDropdownMappings fields)) [])
        (name, opts) hmem
      obtain ⟨v, hv⟩ := Option.isSome_iff_exists.mp hcov
      refine ⟨v, hv, ?_⟩
      rcases fillMissingDropdown_lookup fields _ name v hv with h1 | ⟨opts', hm', hveq⟩
      · refine parseDropdownFold_valid fields (buildDropdownMappings fields)
          (splitChar ',' (pyStrip text)) [] ?_ name v opts h1
          (mem_lookupA_of_nodup hnd hmem) hne
        intro k w o hw
        simp [lookupA] at hw
      · have e1 := mem_lookupA_of_nodup hnd hmem
        have e2 := mem_lookupA_of_nodup hnd hm'
        rw [e1] at e2
        injection e2 with ho
        rw [hveq, ← ho]
        exact dropdownFallback_mem opts hne

/-- Witness for C6 (amended) at a concrete field and response. -/
theorem dropdown_choice_validation_amended_witness :
    ∃ v, lookupA (analyzeAllDropdownFields (some "1: Так") [("F", ["Ні", "Так"])]).1 "F"
      = some v ∧ v ∈ ["Ні", "Так"] :=
  dropdown_choice_validation_amended.2.2 [("F", ["Ні", "Так"])] (some "1: Так")
    "F" ["Ні", "Так"] (by decide) (by decide) (by decide)

/-- Claim C9: if the persisted ledger file exists but cannot be read or
parsed, `load_history` swallows the error and resets the in-memory history
to the empty mapping, after which `is_processed` returns `False` for every
item identity. -/
theorem tracker_corrupted_ledger_resets :
    load_history LedgerFile.unreadable = [] ∧
    (∀ fileId : String, is_processed (load_history LedgerFile.unreadable) fileId = false) :=
  ⟨rfl, fun _ => rfl⟩

/-- Claim C7 (counterexample): the aggregation strips whitespace before the
`"0"`/`"1"` test (`value.strip() in ['1','0']`), so a field whose raw string
is `" 1"` — not exactly `"0"` or `"1"` — still contributes 1, contrary to
the claim's raw-string reading (the spec-side recount yields 0). -/
theorem score_aggregation_strips_counterexample :
    calculateScoreFromBinaryFields [("F", AValue.str " 1")] = 1 ∧
    specRawBinaryScore [("F", AValue.str " 1")] = 0 ∧ (1 : Int) ≠ 0 := by
  decide

theorem calcScoreStep_shift (acc : Int) (p : String × AValue) :
    calcScoreStep acc p = acc + calcScoreStep 0 p := by
  rcases p with ⟨nm, av⟩
  cases av with
  | str v =>
    simp only [calcScoreStep]
    split_ifs <;> omega
  | none => simp [calcScoreStep]
  | int i => simp [calcScoreStep]
  | eval e => simp [calcScoreStep]

theorem calc_foldl_shift :
    ∀ (d : List (String × AValue)) (acc : Int),
      d.foldl calcScoreStep acc = acc + d.foldl calcScoreStep 0 := by
  intro d
  induction d with
  | nil => intro acc; simp
  | cons p rest ih =>
    intro acc
    simp only [List.foldl_cons]
    rw [ih (calcScoreStep acc p), ih (calcScoreStep 0 p), calcScoreStep_shift]
    omega

theorem calcScoreStep_zero (p : String × AValue) :
    calcScoreStep 0 p = if (match p.2 with
      | AValue.str v => pyStrip v == "1"
      | _ => false) then 1 else 0 := by
  rcases p with ⟨nm, av⟩
  cases av with
  | str v =>
    simp only [calcScoreStep]
    by_cases h1 : pyStrip v == "1"
    · simp [h1]
    · by_cases h0 : pyStrip v == "0" <;> simp [h1, h0]
  | none => simp [calcScoreStep]
  | int i => simp [calcScoreStep]
  | eval e => simp [calcScoreStep]

/-- Claim C7 (amended): the score aggregation returns exactly the count of
fields whose string value, after whitespace stripping, is `"1"` (fields
stripping to `"0"` add zero); fields whose value is any other string, a
non-string, or absent contribute nothing.  The raw-string reading of the
claim fails only in that the code strips whitespace first. -/
theorem score_aggregation_counts_stripped_ones :
    ∀ d : List (String × AValue),
      calculateScoreFromBinaryFields d = ((countBinaryOnes d : Nat) : Int) := by
  intro d
  induction d with
  | nil => rfl
  | cons p rest ih =>
    show (p :: rest).foldl calcScoreStep 0 = _
    simp only [List.foldl_cons]
    rw [calc_foldl_shift rest (calcScoreStep 0 p), calcScoreStep_zero]
    have hres : rest.foldl calcScoreStep 0 = ((countBinaryOnes rest : Nat) : Int) := ih
    rw [hres]
    simp only [countBinaryOnes, List.filter_cons]
    split_ifs with hp
    · simp only [List.length_cons]
      push_cast
      omega
    · simp

theorem mem_enum_getD (l : List String) (i : Nat) (x : String) (h : (i, x) ∈ l.enum) :
    l.getD i "" = x := by
  have h2 := List.mem_enum_iff_getElem?.mp h
  simp only at h2
  rw [List.getD_eq_getElem?_getD, h2]
  rfl

theorem collectHeadersAux_length (ws : Worksheet) (headerRow c : Nat)
    (hc : ws.cells headerRow c = Option.none) :
    ∀ (fuel start : Nat), start ≤ c →
      (collectHeadersAux ws headerRow fuel start).length ≤ c - start := by
  intro fuel
  induction fuel with
  | zero => intro start h; simp [collectHeadersAux]
  | succ f ih =>
    intro start hs
    cases hv : ws.cells headerRow start with
    | none => simp [collectHeadersAux, hv]
    | some v =>
      have hne : start ≠ c := by
        intro he
        rw [he, hc] at hv
        exact Option.noConfusion hv
      have hlt : start < c := lt_of_le_of_ne hs hne
      simp only [collectHeadersAux, hv, List.length_cons]
      have hrec := ih (start + 1) hlt
      omega

theorem dedup_fold_length :
    ∀ (hs : List String) (out : List String) (counts : List (String × Nat)),
      ((hs.foldl dedupStep (out, counts)).1).length = out.length + hs.length := by
  intro hs
  induction hs with
  | nil => intro out counts; simp
  | cons key rest ih =>
    intro out counts
    simp only [List.foldl_cons]
    cases hc : lookupA counts key with
    | none =>
      have hstep : dedupStep (out, counts) key = (out ++ [key], insertAssoc counts key 1) := by
        simp [dedupStep, hc]
      rw [hstep, ih]
      simp only [List.length_append, List.length_cons, List.length_nil]
      omega
    | some c =>
      have hstep : dedupStep (out, counts) key
          = (out ++ [key ++ "_" ++ natToString (c+1)], insertAssoc counts key (c+1)) := by
        simp [dedupStep, hc]
      rw [hstep, ih]
      simp only [List.length_append, List.length_cons, List.length_nil]
      omega

theorem dedupKeys_length (headers : List String) :
    (dedupKeys headers).length = headers.length := by
  have h := dedup_fold_length headers [] []
  simpa [dedupKeys] using h

theorem insertAssoc_length_le {α β : Type} [DecidableEq α] (m : List (α × β)) (k : α) (v : β) :
    (insertAssoc m k v).length ≤ m.length + 1 := by
  cases hc : lookupA m k with
  | none => rw [insertAssoc_length_absent m k v hc]
  | some w =>
    rw [insertAssoc_length_present m k v w hc]
    omega

theorem buildKeysDictAux_length_le :
    ∀ (ks : List String) (i : Nat) (m : List (String × Nat)),
      (buildKeysDictAux ks i m).length ≤ m.length + ks.length := by
  intro ks
  induction ks with
  | nil => intro i m; simp [buildKeysDictAux]
  | cons k rest ih =>
    intro i m
    simp only [buildKeysDictAux, List.length_cons]
    have h1 := ih (i+1) (insertAssoc m k i)
    have h2 := insertAssoc_length_le m k i
    omega

theorem underscore_mem_suffix (k : String) (m : Nat) :
    '_' ∈ (k ++ "_" ++ natToString m).data := by
  have h : ('_' : Char) ∈ ("_" : String).data := by decide
  simp only [string_data_append]
  exact List.mem_append.mpr (Or.inl (List.mem_append.mpr (Or.inr h)))

theorem insertAssoc_absent_append {α β : Type} [DecidableEq α] (m : List (α × β)) (k : α) (v : β)
    (h : lookupA m k = Option.none) : insertAssoc m k v = m ++ [(k, v)] := by
  induction m with
  | nil => simp [insertAssoc]
  | cons p rest ih =>
    obtain ⟨k0, v0⟩ := p
    by_cases h0 : k0 = k
    · simp [lookupA, h0] at h
    · simp only [lookupA, if_neg h0] at h
      simp [insertAssoc, if_neg h0, ih h]

theorem buildKeysDictAux_keys :
    ∀ (ks : List String) (i : Nat) (m : List (String × Nat)),
      ks.Nodup → (∀ k ∈ ks, lookupA m k = Option.none) →
      (buildKeysDictAux ks i m).map Prod.fst = m.map Prod.fst ++ ks := by
  intro ks
  induction ks with
  | nil => intro i m _ _; simp [buildKeysDictAux]
  | cons k rest ih =>
    intro i m hnd habs
    simp only [buildKeysDictAux]
    have habsk : lookupA m k = Option.none := habs k (List.mem_cons_self _ _)
    have habs2 : ∀ k' ∈ rest, lookupA (insertAssoc m k i) k' = Option.none := by
      intro k' hk'
      have hne : k' ≠ k := by
        intro he
        subst he
        exact (List.nodup_cons.mp hnd).1 hk'
      rw [lookupA_insertAssoc_ne m k k' i hne]
      exact habs k' (List.mem_cons_of_mem _ hk')
    rw [ih (i+1) (insertAssoc m k i) (List.nodup_cons.mp hnd).2 habs2]
    rw [insertAssoc_absent_append m k i habsk]
    simp

theorem buildKeysDict_length_nodup (ks : List String) (hnd : ks.Nodup) :
    (buildKeysDict ks).length = ks.length := by
  have h := buildKeysDictAux_keys ks 0 [] hnd (fun k _ => rfl)
  have h2 : ((buildKeysDictAux ks 0 []).map Prod.fst).length = ks.length := by
    rw [h]
    simp
  simpa [buildKeysDict] using h2

theorem readDataGsStep_fold_mem (dataValues : List String) (ddmap : List (Nat × List String)) :
    ∀ (pairs : List (Nat × String)) (acc : List (String × GsFieldInfo)) (p : String × GsFieldInfo),
      p ∈ pairs.foldl (readDataGsStep dataValues ddmap) acc →
      p ∈ acc ∨ ∃ i h, (i, h) ∈ pairs ∧ pyStrip h ≠ "" ∧
        p = (pyStrip h, mkGsInfo dataValues ddmap i) := by
  intro pairs
  induction pairs with
  | nil => intro acc p hp; left; exact hp
  | cons q rest ih =>
    obtain ⟨qi, qh⟩ := q
    intro acc p hp
    simp only [List.foldl_cons] at hp
    rcases ih _ p hp with hacc | ⟨i, h, hm, hne, he⟩
    · unfold readDataGsStep at hacc
      split at hacc
      · next hcond =>
        rcases mem_insertAssoc hacc with he | hm
        · right
          exact ⟨qi, qh, List.mem_cons_self _ _, hcond, he⟩
        · left; exact hm
      · left; exact hacc
    · right; exact ⟨i, h, List.mem_cons_of_mem _ hm, hne, he⟩

theorem readDataGs_column_header_nonblank
    (grid : List (List String)) (ddmap : List (Nat × List String))
    (headerRow dataRow : Nat) (p : String × GsFieldInfo)
    (hp : p ∈ readDataGs grid ddmap headerRow dataRow) :
    ∃ colIdx, p.2.column = colIdx + 1 ∧
      pyStrip ((grid.getD (headerRow - 1) []).getD colIdx "") ≠ "" := by
  simp only [readDataGs] at hp
  split at hp
  · simp at hp
  · rcases readDataGsStep_fold_mem _ _ _ _ p hp with hacc | ⟨i, h, hm, hne, he⟩
    · simp at hacc
    · refine ⟨i, ?_, ?_⟩
      · rw [he]
        rfl
      · rw [mem_enum_getD _ i h hm]
        exact hne

theorem dedup_fold_nodup :
    ∀ (hs : List String) (out : List String) (counts : List (String × Nat)),
      (∀ h ∈ hs, '_' ∉ h.data) →
      out.Nodup →
      (∀ q ∈ counts, 1 ≤ q.2) →
      (∀ s ∈ out, ('_' ∉ s.data ∧ (lookupA counts s).isSome) ∨
        ∃ k m c, '_' ∉ k.data ∧ 2 ≤ m ∧ s = k ++ "_" ++ natToString m ∧
          lookupA counts k = some c ∧ m ≤ c) →
      ((hs.foldl dedupStep (out, counts)).1).Nodup := by
  intro hs
  induction hs with
  | nil => intro out counts _ hnd _ _; exact hnd
  | cons key rest ih =>
    intro out counts hh hnd hcnt hinv
    have hkey : '_' ∉ key.data := hh key (List.mem_cons_self _ _)
    have hhrest : ∀ h ∈ rest, '_' ∉ h.data := fun h hm => hh h (List.mem_cons_of_mem _ hm)
    simp only [List.foldl_cons]
    cases hc : lookupA counts key with
    | none =>
      have hstep : dedupStep (out, counts) key = (out ++ [key], insertAssoc counts key 1) := by
        simp [dedupStep, hc]
      rw [hstep]
      have hknotin : key ∉ out := by
        intro hmem
        rcases hinv key hmem with ⟨_, hsome⟩ | ⟨k, m, c, hkus, hm2, heq, hlk, hmc⟩
        · rw [hc] at hsome; simp at hsome
        · exact hkey (by rw [heq]; exact underscore_mem_suffix k m)
      apply ih (out ++ [key]) (insertAssoc counts key 1) hhrest ?nd ?cnt ?inv
      case nd =>
        rw [List.nodup_append]
        refine ⟨hnd, List.nodup_singleton key, fun a ha hb => ?_⟩
        rw [List.mem_singleton] at hb
        exact hknotin (hb ▸ ha)
      case cnt =>
        intro q hq
        rcases mem_insertAssoc hq with he | hm
        · subst he; simp
        · exact hcnt q hm
      case inv =>
        intro s hs0
        rcases List.mem_append.mp hs0 with hso | hsk
        · rcases hinv s hso with ⟨hus, hsome⟩ | ⟨k, m, c, hkus, hm2, heq, hlk, hmc⟩
          · left
            exact ⟨hus, lookupA_isSome_insertAssoc counts key s 1 hsome⟩
          · right
            have hkne : k ≠ key := by
              intro he
              rw [he, hc] at hlk
              exact Option.noConfusion hlk
            exact ⟨k, m, c, hkus, hm2, heq,
              by rw [lookupA_insertAssoc_ne counts key k 1 hkne]; exact hlk, hmc⟩
        · rw [List.mem_singleton] at hsk
          subst hsk
          left
          refine ⟨hkey, ?_⟩
          rw [lookupA_insertAssoc_self]
          simp
    | some c =>
      have hstep : dedupStep (out, counts) key
          = (out ++ [key ++ "_" ++ natToString (c+1)], insertAssoc counts key (c+1)) := by
        simp [dedupStep, hc]
      rw [hstep]
      have hc1 : 1 ≤ c := hcnt (key, c) (lookupA_mem hc)
      have hsnotin : (key ++ "_" ++ natToString (c+1)) ∉ out := by
        intro hmem
        rcases hinv _ hmem with ⟨hus, _⟩ | ⟨k, m, ck, hkus, hm2, heq, hlk, hmc⟩
        · exact hus (underscore_mem_suffix key (c+1))
        · obtain ⟨hk, hm⟩ := suffix_name_inj key k (c+1) m hkey hkus heq
          rw [← hk] at hlk
          rw [hc] at hlk
          injection hlk with hck
          omega
      apply ih _ _ hhrest ?nd2 ?cnt2 ?inv2
      case nd2 =>
        rw [List.nodup_append]
        refine ⟨hnd, List.nodup_singleton _, fun a ha hb => ?_⟩
        rw [List.mem_singleton] at hb
        exact hsnotin (hb ▸ ha)
      case cnt2 =>
        intro q hq
        rcases mem_insertAssoc hq with he | hm
        · subst he; simp
        · exact hcnt q hm
      case inv2 =>
        intro s hs0
        rcases List.mem_append.mp hs0 with hso | hsk
        · rcases hinv s hso with ⟨hus, hsome⟩ | ⟨k, m, ck, hkus, hm2, heq, hlk, hmc⟩
          · left
            exact ⟨hus, lookupA_isSome_insertAssoc counts key s (c+1) hsome⟩
          · right
            by_cases hkne : k = key
            · subst hkne
              rw [hc] at hlk
              injection hlk with hck
              refine ⟨k, m, c+1, hkus, hm2, heq, ?_, by omega⟩
              rw [lookupA_insertAssoc_self]
            · exact ⟨k, m, ck, hkus, hm2, heq,
                by rw [lookupA_insertAssoc_ne counts key k (c+1) hkne]; exact hlk, hmc⟩
        · rw [List.mem_singleton] at hsk
          subst hsk
          right
          refine ⟨key, c+1, c+1, hkey, by omega, rfl, ?_, le_refl _⟩
          rw [lookupA_insertAssoc_self]

theorem dedupKeys_nodup (headers : List String)
    (h : ∀ s ∈ headers, '_' ∉ s.data) : (dedupKeys headers).Nodup := by
  have hr := dedup_fold_nodup headers [] [] h List.nodup_nil (by simp) (by simp)
  simpa [dedupKeys] using hr

/-- Claim C4 (counterexample): the cloud schema read does not stop at the
first blank header.  With header row `["A", "", "B"]`, the schema still
contains field `B` at column 3, although the column-2 header is blank. -/
theorem schema_stop_at_blank_counterexample :
    lookupA (readDataGs [[], ["A", "", "B"], ["", "", ""]] [] 2 3) "B"
      = some (GsFieldInfo.mk 3 "" "text" Option.none) ∧
    (["A", "", "B"].getD 1 "") = "" :=
  ⟨by decide, rfl⟩

/-- Claim C4 (amended): the LOCAL reader stops at the first absent header
cell — every schema field comes from a column strictly before it (the schema
has at most `c-1` entries when column `c`'s header is absent).  The CLOUD
reader does not stop: it merely skips blank-header columns (no schema entry
carries a blank-header column) and continues into later non-blank columns. -/
theorem schema_stop_at_blank_amended :
    (∀ (ws : Worksheet) (headerRow c : Nat), 1 ≤ c →
      ws.cells headerRow c = Option.none →
      (headerValuesXl ws headerRow).length ≤ c - 1 ∧
      (readDataXlKeys ws headerRow).length ≤ c - 1) ∧
    (∀ (grid : List (List String)) (ddmap : List (Nat × List String))
      (headerRow dataRow : Nat) (p : String × GsFieldInfo),
      p ∈ readDataGs grid ddmap headerRow dataRow →
      ∃ colIdx, p.2.column = colIdx + 1 ∧
        pyStrip ((grid.getD (headerRow - 1) []).getD colIdx "") ≠ "") := by
  constructor
  · intro ws headerRow c hc hnone
    have h1 : (headerValuesXl ws headerRow).length ≤ c - 1 := by
      have h := collectHeadersAux_length ws headerRow c hnone ws.nCols 1 hc
      simpa [headerValuesXl] using h
    refine ⟨h1, ?_⟩
    have h2 : (readDataXlKeys ws headerRow).length
        ≤ (dedupKeys (headerValuesXl ws headerRow)).length := by
      have h := buildKeysDictAux_length_le (dedupKeys (headerValuesXl ws headerRow)) 0 []
      simpa [readDataXlKeys, buildKeysDict] using h
    rw [dedupKeys_length] at h2
    omega
  · exact fun grid ddmap hR dR p hp =>
      readDataGs_column_header_nonblank grid ddmap hR dR p hp

/-- Witness for C4 (amended) at a concrete one-column worksheet whose
column-2 header cell is absent. -/
theorem schema_stop_at_blank_amended_witness :
    (headerValuesXl
      ⟨fun r c => if r = 1 ∧ c = 1 then some (CellVal.s "A") else Option.none, 1, 1⟩
      1).length ≤ 2 - 1 ∧
    (readDataXlKeys
      ⟨fun r c => if r = 1 ∧ c = 1 then some (CellVal.s "A") else Option.none, 1, 1⟩
      1).length ≤ 2 - 1 :=
  schema_stop_at_blank_amended.1
    ⟨fun r c => if r = 1 ∧ c = 1 then some (CellVal.s "A") else Option.none, 1, 1⟩
    1 2 (by decide) (by decide)

/-- Claim C5 (counterexample): field names are not deduplicated on the cloud
backend — a repeated header (`["A", "A"]`) leaves a single schema entry, the
earlier column silently dropped.  And on the local backend the numeric
suffixing can itself collide: headers `["X", "X_2", "X"]` produce unique
keys `["X", "X_2", "X_2"]`, so the dict keeps only 2 of the 3 columns. -/
theorem schema_unique_names_counterexample :
    readDataGs [[], ["A", "A"], ["", ""]] [] 2 3
      = [("A", GsFieldInfo.mk 2 "" "text" Option.none)] ∧
    dedupKeys ["X", "X_2", "X"] = ["X", "X_2", "X_2"] ∧
    buildKeysDict (dedupKeys ["X", "X_2", "X"]) = [("X", 0), ("X_2", 2)] :=
  ⟨by decide, by decide, by decide⟩

/-- Claim C5 (amended): on the LOCAL backend, provided no header name itself
contains an underscore (so a header cannot collide with a generated
suffix), the reader's suffixing (`X`, `X_2`, `X_3`, … in first-seen order)
yields pairwise-distinct field names and no column is dropped: the schema
has exactly one entry per retained header column.  The CLOUD backend
performs no deduplication (counterexample above). -/
theorem schema_dedup_amended :
    (∀ (ws : Worksheet) (headerRow : Nat),
      (∀ s ∈ headerValuesXl ws headerRow, '_' ∉ s.data) →
      (dedupKeys (headerValuesXl ws headerRow)).Nodup ∧
      (dedupKeys (headerValuesXl ws headerRow)).length
        = (headerValuesXl ws headerRow).length ∧
      (readDataXlKeys ws headerRow).map Prod.fst
        = dedupKeys (headerValuesXl ws headerRow) ∧
      (readDataXlKeys ws headerRow).length = (headerValuesXl ws headerRow).length) ∧
    dedupKeys ["X", "X", "X"] = ["X", "X_2", "X_3"] := by
  constructor
  · intro ws headerRow hus
    have hnd := dedupKeys_nodup _ hus
    have hlen := dedupKeys_length (headerValuesXl ws headerRow)
    refine ⟨hnd, hlen, ?_, ?_⟩
    · have h := buildKeysDictAux_keys (dedupKeys (headerValuesXl ws headerRow)) 0 []
        hnd (fun k _ => rfl)
      simpa [readDataXlKeys, buildKeysDict] using h
    · have h := buildKeysDict_length_nodup (dedupKeys (headerValuesXl ws headerRow)) hnd
      simp only [readDataXlKeys]
      rw [h, hlen]
  · decide

/-- Witness for C5 (amended) at a concrete worksheet with duplicate header
`A` in columns 1 and 3. -/
theorem schema_dedup_amended_witness :
    (dedupKeys (headerValuesXl
      ⟨fun r c => if r = 1 ∧ c = 1 then some (CellVal.s "A")
        else if r = 1 ∧ c = 2 then some (CellVal.s "B")
        else if r = 1 ∧ c = 3 then some (CellVal.s "A")
        else Option.none, 1, 3⟩ 1)).Nodup :=
  (schema_dedup_amended.1
    ⟨fun r c => if r = 1 ∧ c = 1 then some (CellVal.s "A")
      else if r = 1 ∧ c = 2 then some (CellVal.s "B")
      else if r = 1 ∧ c = 3 then some (CellVal.s "A")
      else Option.none, 1, 3⟩ 1 (by decide)).1

theorem getD_replicate {α : Type} (n i : Nat) (d : α) :
    (List.replicate n d).getD i d = d := by
  rcases Nat.lt_or_ge i n with h | h
  · simp [List.getD_eq_getElem?_getD, List.getElem?_replicate, h]
  · exact List.getD_eq_default _ d (by simpa using h)

theorem padList_getD {α : Type} (l : List α) (n i : Nat) (d : α) :
    (padList l n d).getD i d = l.getD i d := by
  unfold padList
  rcases Nat.lt_or_ge i l.length with h | h
  · exact List.getD_append _ _ d i h
  · rw [List.getD_eq_default l d h]
    rcases Nat.lt_or_ge i (l.length + (n - l.length)) with h2 | h2
    · rw [List.getD_eq_getElem?_getD, List.getElem?_append_right h]
      simp only [List.getElem?_replicate]
      split <;> rfl
    · apply List.getD_eq_default
      simpa using h2

theorem padList_length {α : Type} (l : List α) (n : Nat) (d : α) :
    (padList l n d).length = max l.length n := by
  simp [padList]
  omega

theorem getD_set_self {α : Type} (l : List α) (i : Nat) (a d : α) (h : i < l.length) :
    (l.set i a).getD i d = a := by
  simp [List.getD_eq_getElem?_getD, List.getElem?_set, h]

theorem getD_set_ne {α : Type} (l : List α) (i j : Nat) (a d : α) (h : i ≠ j) :
    (l.set i a).getD j d = l.getD j d := by
  simp [List.getD_eq_getElem?_getD, List.getElem?_set, h]

theorem setCellGs_length (g : List (List String)) (r c : Nat) (v : String) :
    (setCellGs g r c v).length = max g.length r := by
  simp [setCellGs, padList_length]

theorem setCellGs_row_self (g : List (List String)) (r c : Nat) (v : String) (hr : 1 ≤ r) :
    (setCellGs g r c v).getD (r-1) []
      = (padList (g.getD (r-1) []) c "").set (c-1) v := by
  unfold setCellGs
  rw [getD_set_self _ _ _ _ (by rw [padList_length]; omega), padList_getD]

theorem setCellGs_row_ne (g : List (List String)) (r c : Nat) (v : String) (x : Nat)
    (hx : x ≠ r - 1) : (setCellGs g r c v).getD x [] = g.getD x [] := by
  unfold setCellGs
  rw [getD_set_ne _ _ _ _ _ (fun he => hx he.symm), padList_getD]

theorem setCellGs_cell_self (g : List (List String)) (r c : Nat) (v : String)
    (hr : 1 ≤ r) (hc : 1 ≤ c) : cellGs (setCellGs g r c v) r c = v := by
  unfold cellGs
  rw [setCellGs_row_self g r c v hr]
  exact getD_set_self _ _ _ _ (by rw [padList_length]; omega)

theorem rowEmptyXl_false_of_cell (ws : Worksheet) (r c : Nat)
    (hc1 : 1 ≤ c) (hc2 : c ≤ ws.nCols) (h : cellBlank (ws.cells r c) = false) :
    rowEmptyXl ws r = false := by
  unfold rowEmptyXl
  rw [List.all_eq_false]
  refine ⟨c - 1, List.mem_range.mpr (by omega), ?_⟩
  have he : c - 1 + 1 = c := by omega
  rw [he, h]
  simp

theorem rowEmptyXl_false_frame (ws : Worksheet) (r c : Nat) (v : Option CellVal) (x : Nat)
    (hx : x ≠ r) (h : rowEmptyXl ws x = false) :
    rowEmptyXl (setCell ws r c v) x = false := by
  unfold rowEmptyXl at h ⊢
  rw [List.all_eq_false] at h ⊢
  obtain ⟨c0, hc0, hb⟩ := h
  refine ⟨c0, ?_, ?_⟩
  · have hlt := List.mem_range.mp hc0
    refine List.mem_range.mpr ?_
    have : (setCell ws r c v).nCols = max ws.nCols c := rfl
    omega
  · rw [setCell_cells_ne ws r c x (c0+1) v (Or.inl hx)]
    exact hb

theorem firstEmptyXlFrom_earlier (ws : Worksheet) :
    ∀ (fuel row x : Nat), row ≤ x → x < firstEmptyXlFrom ws row fuel →
      x < row + fuel → rowEmptyXl ws x = false := by
  intro fuel
  induction fuel with
  | zero => intro row x h1 _ h3; omega
  | succ f ih =>
    intro row x h1 h2 h3
    by_cases he : rowEmptyXl ws row
    · have hres : firstEmptyXlFrom ws row (f+1) = row := by
        simp [firstEmptyXlFrom, he]
      rw [hres] at h2
      omega
    · have hres : firstEmptyXlFrom ws row (f+1) = firstEmptyXlFrom ws (row+1) f := by
        simp [firstEmptyXlFrom, he]
      rw [hres] at h2
      by_cases hx : x = row
      · subst hx
        rw [Bool.not_eq_true] at he
        exact he
      · exact ih (row+1) x (by omega) h2 (by omega)

theorem firstEmptyXlFrom_le (ws : Worksheet) :
    ∀ (fuel row : Nat), firstEmptyXlFrom ws row fuel ≤ row + fuel ∨
      firstEmptyXlFrom ws row fuel = ws.nRows + 1 := by
  intro fuel
  induction fuel with
  | zero => intro row; right; rfl
  | succ f ih =>
    intro row
    by_cases he : rowEmptyXl ws row
    · left
      have hres : firstEmptyXlFrom ws row (f+1) = row := by
        simp [firstEmptyXlFrom, he]
      omega
    · have hres : firstEmptyXlFrom ws row (f+1) = firstEmptyXlFrom ws (row+1) f := by
        simp [firstEmptyXlFrom, he]
      rw [hres]
      rcases ih (row+1) with h | h
      · left; omega
      · right; exact h

theorem firstEmptyXlFrom_gt (ws : Worksheet) :
    ∀ (fuel row R : Nat),
      (∀ x, row ≤ x → x ≤ R → rowEmptyXl ws x = false) → R ≤ ws.nRows →
      R < firstEmptyXlFrom ws row fuel := by
  intro fuel
  induction fuel with
  | zero =>
    intro row R _ hR
    show R < ws.nRows + 1
    omega
  | succ f ih =>
    intro row R hall hR
    by_cases he : rowEmptyXl ws row
    · have hres : firstEmptyXlFrom ws row (f+1) = row := by
        simp [firstEmptyXlFrom, he]
      rw [hres]
      by_contra hcon
      push_neg at hcon
      have hfalse := hall row (le_refl _) hcon
      rw [hfalse] at he
      simp at he
    · have hres : firstEmptyXlFrom ws row (f+1) = firstEmptyXlFrom ws (row+1) f := by
        simp [firstEmptyXlFrom, he]
      rw [hres]
      exact ih (row+1) R (fun x h1 h2 => hall x (by omega) h2) hR

theorem rowEmptyGs_false_of_cell (row : List String) (c : Nat)
    (hc1 : 1 ≤ c) (hc5 : c ≤ 5) (h : pyStrip (row.getD (c-1) "") ≠ "") :
    rowEmptyGs row = false := by
  have hlen : c - 1 < row.length := by
    by_contra hcon
    push_neg at hcon
    rw [List.getD_eq_default row "" hcon] at h
    exact h rfl
  unfold rowEmptyGs
  rw [List.all_eq_false]
  refine ⟨row.getD (c-1) "", ?_, by simpa using h⟩
  have hm : c - 1 < (row.take 5).length := by
    simp [List.length_take]
    omega
  have hg : row.getD (c-1) "" = (row.take 5).get ⟨c-1, hm⟩ := by
    have h3 : (row.take 5).get ⟨c-1, hm⟩ = row.get ⟨c-1, hlen⟩ := by
      simp [List.getElem_take']
    rw [h3]
    simp [List.getD_eq_getElem?_getD, List.getElem?_eq_getElem hlen]
  rw [hg]
  exact List.get_mem (row.take 5) (c-1) hm

theorem firstEmptyGsFrom_earlier (g : List (List String)) :
    ∀ (fuel i x : Nat), i ≤ x → x + 1 < firstEmptyGsFrom g i fuel →
      x < i + fuel → rowEmptyGs (g.getD x []) = false := by
  intro fuel
  induction fuel with
  | zero => intro i x h1 _ h3; omega
  | succ f ih =>
    intro i x h1 h2 h3
    by_cases he : rowEmptyGs (g.getD i [])
    · have hres : firstEmptyGsFrom g i (f+1) = i + 1 := by
        simp only [firstEmptyGsFrom]
        rw [if_pos he]
      rw [hres] at h2
      omega
    · have hres : firstEmptyGsFrom g i (f+1) = firstEmptyGsFrom g (i+1) f := by
        simp only [firstEmptyGsFrom]
        rw [if_neg he]
      rw [hres] at h2
      by_cases hx : x = i
      · subst hx
        rw [Bool.not_eq_true] at he
        exact he
      · exact ih (i+1) x (by omega) h2 (by omega)

theorem firstEmptyGsFrom_le (g : List (List String)) :
    ∀ (fuel i : Nat), firstEmptyGsFrom g i fuel ≤ i + fuel + 1 ∨
      firstEmptyGsFrom g i fuel = g.length + 1 := by
  intro fuel
  induction fuel with
  | zero => intro i; right; rfl
  | succ f ih =>
    intro i
    by_cases he : rowEmptyGs (g.getD i [])
    · left
      have hres : firstEmptyGsFrom g i (f+1) = i + 1 := by
        simp only [firstEmptyGsFrom]
        rw [if_pos he]
      omega
    · have hres : firstEmptyGsFrom g i (f+1) = firstEmptyGsFrom g (i+1) f := by
        simp only [firstEmptyGsFrom]
        rw [if_neg he]
      rw [hres]
      rcases ih (i+1) with h | h
      · left; omega
      · right; exact h

theorem firstEmptyGsFrom_gt (g : List (List String)) :
    ∀ (fuel i R : Nat),
      (∀ x, i ≤ x → x + 1 ≤ R → rowEmptyGs (g.getD x []) = false) → R ≤ g.length →
      R < firstEmptyGsFrom g i fuel := by
  intro fuel
  induction fuel with
  | zero =>
    intro i R _ hR
    show R < g.length + 1
    omega
  | succ f ih =>
    intro i R hall hR
    by_cases he : rowEmptyGs (g.getD i [])
    · have hres : firstEmptyGsFrom g i (f+1) = i + 1 := by
        simp only [firstEmptyGsFrom]
        rw [if_pos he]
      rw [hres]
      by_contra hcon
      push_neg at hcon
      have hfalse := hall i (le_refl _) (by omega)
      rw [hfalse] at he
      simp at he
    · have hres : firstEmptyGsFrom g i (f+1) = firstEmptyGsFrom g (i+1) f := by
        simp only [firstEmptyGsFrom]
        rw [if_neg he]
      rw [hres]
      exact ih (i+1) R (fun x h1 h2 => hall x (by omega) h2) hR

theorem firstEmptyGsFrom_pos (g : List (List String)) :
    ∀ (fuel i : Nat), 1 ≤ firstEmptyGsFrom g i fuel := by
  intro fuel
  induction fuel with
  | zero =>
    intro i
    show 1 ≤ g.length + 1
    omega
  | succ f ih =>
    intro i
    by_cases he : rowEmptyGs (g.getD i [])
    · have hres : firstEmptyGsFrom g i (f+1) = i + 1 := by
        simp only [firstEmptyGsFrom]
        rw [if_pos he]
      omega
    · have hres : firstEmptyGsFrom g i (f+1) = firstEmptyGsFrom g (i+1) f := by
        simp only [firstEmptyGsFrom]
        rw [if_neg he]
      rw [hres]
      exact ih (i+1)

theorem findNextXl_increase (ws : Worksheet) (headerRow c : Nat) (v : CellVal)
    (hc : 1 ≤ c) (hnb : cellBlank (some v) = false) :
    findNextEmptyRowXl ws headerRow <
      findNextEmptyRowXl (setCell ws (findNextEmptyRowXl ws headerRow) c (some v)) headerRow := by
  have hall : ∀ x, headerRow + 1 ≤ x → x ≤ findNextEmptyRowXl ws headerRow →
      rowEmptyXl (setCell ws (findNextEmptyRowXl ws headerRow) c (some v)) x = false := by
    intro x h1 h2
    rcases Nat.lt_or_eq_of_le h2 with hlt | heq
    · have hx : rowEmptyXl ws x = false := by
        have hle := firstEmptyXlFrom_le ws (ws.nRows + 2 - (headerRow+1)) (headerRow+1)
        have hlt2 : x < firstEmptyXlFrom ws (headerRow+1) (ws.nRows + 2 - (headerRow+1)) := hlt
        apply firstEmptyXlFrom_earlier ws (ws.nRows + 2 - (headerRow+1)) (headerRow+1) x h1 hlt2
        rcases hle with hA | hB
        · omega
        · omega
      exact rowEmptyXl_false_frame ws (findNextEmptyRowXl ws headerRow) c (some v) x
        (by omega) hx
    · rw [heq]
      apply rowEmptyXl_false_of_cell _ _ c hc
      · show c ≤ max ws.nCols c
        exact le_max_right _ _
      · rw [setCell_cells_self]
        exact hnb
  have hR : findNextEmptyRowXl ws headerRow
      ≤ (setCell ws (findNextEmptyRowXl ws headerRow) c (some v)).nRows := by
    show findNextEmptyRowXl ws headerRow ≤ max ws.nRows (findNextEmptyRowXl ws headerRow)
    exact le_max_right _ _
  exact firstEmptyXlFrom_gt _
    ((setCell ws (findNextEmptyRowXl ws headerRow) c (some v)).nRows + 2 - (headerRow+1))
    (headerRow+1) _ hall hR

theorem findNextGs_increase (g : List (List String)) (startRow c : Nat) (v : String)
    (hs : 1 ≤ startRow) (hc1 : 1 ≤ c) (hc5 : c ≤ 5) (hnb : pyStrip v ≠ "") :
    findNextEmptyRowGs g startRow <
      findNextEmptyRowGs (setCellGs g (findNextEmptyRowGs g startRow) c v) startRow := by
  have hconv : findNextEmptyRowGs g startRow
      = firstEmptyGsFrom g (startRow - 1) (g.length - (startRow - 1)) := rfl
  have hr1 : 1 ≤ findNextEmptyRowGs g startRow := by
    rw [hconv]
    exact firstEmptyGsFrom_pos g _ _
  have hall : ∀ x, startRow - 1 ≤ x → x + 1 ≤ findNextEmptyRowGs g startRow →
      rowEmptyGs ((setCellGs g (findNextEmptyRowGs g startRow) c v).getD x []) = false := by
    intro x h1 h2
    by_cases hx : x = findNextEmptyRowGs g startRow - 1
    · rw [hx, setCellGs_row_self g _ c v hr1]
      apply rowEmptyGs_false_of_cell _ c hc1 hc5
      rw [getD_set_self _ _ _ _ (by rw [padList_length]; omega)]
      exact hnb
    · rw [setCellGs_row_ne g _ c v x hx]
      have hle := firstEmptyGsFrom_le g (g.length - (startRow - 1)) (startRow - 1)
      rw [hconv] at h2
      have hlt2 : x + 1 < firstEmptyGsFrom g (startRow - 1) (g.length - (startRow - 1)) := by
        rw [hconv] at hx hr1
        omega
      apply firstEmptyGsFrom_earlier g (g.length - (startRow - 1)) (startRow - 1) x h1 hlt2
      rcases hle with hA | hB
      · omega
      · omega
  have hR : findNextEmptyRowGs g startRow
      ≤ (setCellGs g (findNextEmptyRowGs g startRow) c v).length := by
    rw [setCellGs_length]
    exact le_max_right _ _
  exact firstEmptyGsFrom_gt _
    ((setCellGs g (findNextEmptyRowGs g startRow) c v).length - (startRow - 1))
    (startRow - 1) _ hall hR

/-- Claim C8 (counterexample): the cloud `find_next_empty_row` inspects only
the first five cells of each row.  After allocating row 4 and writing a
value into column 6 of that row, the next call still returns row 4 instead
of a strictly greater index. -/
theorem row_allocation_counterexample :
    findNextEmptyRowGs [["h"], ["h"], ["x"]] 4 = 4 ∧
    cellGs (setCellGs [["h"], ["h"], ["x"]] 4 6 "v") 4 6 = "v" ∧
    findNextEmptyRowGs (setCellGs [["h"], ["h"], ["x"]] 4 6 "v") 4 = 4 :=
  ⟨by decide, by decide, by decide⟩

/-- Claim C8 (amended): `find_next_empty_row` is a pure function of the
sheet state on both backends, so two sequential calls with no intervening
write return the same index.  After a non-blank value is written into any
column of the returned row, the next call on the LOCAL backend returns a
strictly greater index; on the CLOUD backend this holds only when the write
lands in one of the first five columns (a write beyond column 5 can leave
the next returned index unchanged, per the counterexample). -/
theorem row_allocation_amended :
    (∀ (ws : Worksheet) (headerRow : Nat),
      findNextEmptyRowXl ws headerRow = findNextEmptyRowXl ws headerRow) ∧
    (∀ (g : List (List String)) (startRow : Nat),
      findNextEmptyRowGs g startRow = findNextEmptyRowGs g startRow) ∧
    (∀ (ws : Worksheet) (headerRow c : Nat) (v : CellVal),
      1 ≤ c → cellBlank (some v) = false →
      findNextEmptyRowXl ws headerRow <
        findNextEmptyRowXl
          (setCell ws (findNextEmptyRowXl ws headerRow) c (some v)) headerRow) ∧
    (∀ (g : List (List String)) (startRow c : Nat) (v : String),
      1 ≤ startRow → 1 ≤ c → c ≤ 5 → pyStrip v ≠ "" →
      findNextEmptyRowGs g startRow <
        findNextEmptyRowGs
          (setCellGs g (findNextEmptyRowGs g startRow) c v) startRow) := by
  refine ⟨fun _ _ => rfl, fun _ _ => rfl, ?_, ?_⟩
  · intro ws headerRow c v hc hnb
    exact findNextXl_increase ws headerRow c v hc hnb
  · intro g s c v hs h1 h5 hnb
    exact findNextGs_increase g s c v hs h1 h5 hnb

/-- Witness for C8 (amended): the strict-increase conjuncts at a concrete
one-row workbook and one-row cloud grid. -/
theorem row_allocation_amended_witness :
    (findNextEmptyRowXl
        ⟨fun r c => if r = 1 ∧ c = 1 then some (CellVal.s "H") else Option.none, 1, 1⟩ 1 <
      findNextEmptyRowXl
        (setCell
          ⟨fun r c => if r = 1 ∧ c = 1 then some (CellVal.s "H") else Option.none, 1, 1⟩
          (findNextEmptyRowXl
            ⟨fun r c => if r = 1 ∧ c = 1 then some (CellVal.s "H") else Option.none, 1, 1⟩ 1)
          1 (some (CellVal.s "x"))) 1) ∧
    (findNextEmptyRowGs [["h"]] 1 <
      findNextEmptyRowGs (setCellGs [["h"]] (findNextEmptyRowGs [["h"]] 1) 1 "y") 1) :=
  ⟨row_allocation_amended.2.2.1
      ⟨fun r c => if r = 1 ∧ c = 1 then some (CellVal.s "H") else Option.none, 1, 1⟩
      1 1 (CellVal.s "x") (by decide) (by decide),
   row_allocation_amended.2.2.2 [["h"]] 1 1 "y" (by decide) (by decide) (by decide)
      (by decide)⟩

theorem shouldSkipField_congr (ws ws' : Worksheet) (name : String) (r c : Nat)
    (h : ws'.cells r c = ws.cells r c) :
    shouldSkipField ws' name r c = shouldSkipField ws name r c := by
  unfold shouldSkipField
  rw [h]

theorem headerStep_none (ws : Worksheet) (headerRow : Nat) (m : List (String × Nat))
    (c : Nat) (h : ws.cells headerRow (c+1) = Option.none) :
    headerStep ws headerRow m c = m := by
  unfold headerStep
  rw [h]

theorem headerStep_some (ws : Worksheet) (headerRow : Nat) (m : List (String × Nat))
    (c : Nat) (v : CellVal) (h : ws.cells headerRow (c+1) = some v) :
    headerStep ws headerRow m c =
      if truthyCV (some v) then insertAssoc m (pyStrip (pyStrCV v)) (c+1) else m := by
  unfold headerStep
  rw [h]

theorem headerMapXl_invariant (ws : Worksheet) (headerRow : Nat) :
    ∀ n : Nat,
      (∀ p ∈ (List.range n).foldl (headerStep ws headerRow) [], 1 ≤ p.2 ∧ p.2 ≤ n) ∧
      (∀ p ∈ (List.range n).foldl (headerStep ws headerRow) [],
        ∀ q ∈ (List.range n).foldl (headerStep ws headerRow) [], p.2 = q.2 → p = q) := by
  intro n
  induction n with
  | zero => exact ⟨by simp, by simp⟩
  | succ k ih =>
    rw [List.range_succ, List.foldl_append]
    obtain ⟨ihb, ihi⟩ := ih
    simp only [List.foldl_cons, List.foldl_nil]
    cases hv : ws.cells headerRow (k+1) with
    | none =>
      rw [headerStep_none ws headerRow _ k hv]
      refine ⟨fun p hp => ?_, fun p hp q hq hpq => ihi p hp q hq hpq⟩
      have := ihb p hp
      omega
    | some v =>
      rw [headerStep_some ws headerRow _ k v hv]
      by_cases ht : truthyCV (some v)
      · rw [if_pos ht]
        constructor
        · intro p hp
          rcases mem_insertAssoc hp with he | hm
          · rw [he]; omega
          · have := ihb p hm
            omega
        · intro p hp q hq hpq
          rcases mem_insertAssoc hp with hep | hmp <;>
            rcases mem_insertAssoc hq with heq | hmq
          · rw [hep, heq]
          · have := ihb q hmq
            rw [hep] at hpq
            omega
          · have := ihb p hmp
            rw [heq] at hpq
            omega
          · exact ihi p hmp q hmq hpq
      · rw [if_neg ht]
        refine ⟨fun p hp => ?_, fun p hp q hq hpq => ihi p hp q hq hpq⟩
        have := ihb p hp
        omega

theorem headerMapXl_lookup_inj (ws : Worksheet) (headerRow : Nat)
    (n1 n2 : String) (c : Nat)
    (h1 : lookupA (headerMapXl ws headerRow) n1 = some c)
    (h2 : lookupA (headerMapXl ws headerRow) n2 = some c) : n1 = n2 := by
  have hinv := (headerMapXl_invariant ws headerRow ws.nCols).2
  have m1 := lookupA_mem h1
  have m2 := lookupA_mem h2
  have he := hinv _ m1 _ m2 rfl
  exact congrArg Prod.fst he

theorem nodup_keys_entry_unique {β : Type} (data : List (String × β))
    (hnd : (data.map Prod.fst).Nodup) :
    ∀ p ∈ data, ∀ q ∈ data, p.1 = q.1 → p = q := by
  induction data with
  | nil => simp
  | cons d rest ih =>
    simp only [List.map_cons, List.nodup_cons] at hnd
    intro p hp q hq hpq
    rcases List.mem_cons.mp hp with hep | hmp <;> rcases List.mem_cons.mp hq with heq | hmq
    · rw [hep, heq]
    · exact absurd (List.mem_map.mpr ⟨q, hmq, by rw [← hpq, hep]⟩) hnd.1
    · exact absurd (List.mem_map.mpr ⟨p, hmp, by rw [hpq, heq]⟩) hnd.1
    · exact ih hnd.2 p hmp q hmq hpq

theorem writeFieldsLoop_frame (hm : List (String × Nat)) (targetRow col : Nat)
    (ws0 : Worksheet) :
    ∀ (data : List (String × Option CellVal)) (ws : Worksheet) (cnt : Nat),
      ws.cells targetRow col = ws0.cells targetRow col →
      (∀ p ∈ data, lookupA hm p.1 = some col →
        (p.2 = Option.none ∨ p.2 = some (CellVal.s "") ∨
         shouldSkipField ws0 p.1 targetRow col = true)) →
      ((writeFieldsLoop hm targetRow ws cnt data).1).cells targetRow col
        = ws0.cells targetRow col := by
  intro data
  induction data with
  | nil => intro ws cnt hcell _; exact hcell
  | cons p rest ih =>
    obtain ⟨name, av⟩ := p
    intro ws cnt hcell hcond
    have hcondrest : ∀ q ∈ rest, lookupA hm q.1 = some col →
        (q.2 = Option.none ∨ q.2 = some (CellVal.s "") ∨
         shouldSkipField ws0 q.1 targetRow col = true) :=
      fun q hq => hcond q (List.mem_cons_of_mem _ hq)
    cases hl : lookupA hm name with
    | none =>
      simp only [writeFieldsLoop, hl]
      exact ih ws cnt hcell hcondrest
    | some c =>
      cases av with
      | none =>
        simp only [writeFieldsLoop, hl]
        by_cases hskip : shouldSkipField ws name targetRow c
        · rw [if_pos hskip]
          exact ih ws cnt hcell hcondrest
        · rw [if_neg hskip]
          exact ih ws cnt hcell hcondrest
      | some v =>
        simp only [writeFieldsLoop, hl]
        by_cases hskip : shouldSkipField ws name targetRow c
        · rw [if_pos hskip]
          exact ih ws cnt hcell hcondrest
        · rw [if_neg hskip]
          by_cases hw : writableCV v
          · rw [if_pos hw]
            have hcne : c ≠ col := by
              intro hceq
              subst hceq
              rcases hcond (name, some v) (List.mem_cons_self _ _) hl with h0 | h0 | h0
              · exact Option.noConfusion h0
              · injection h0 with hv0
                rw [hv0] at hw
                simp [writableCV] at hw
              · rw [shouldSkipField_congr ws0 ws name targetRow c hcell] at hskip
                exact hskip h0
            apply ih _ (cnt+1) ?hc hcondrest
            rw [setCell_cells_ne ws targetRow c targetRow col (some v)
              (Or.inr (Ne.symm hcne))]
            exact hcell
          · rw [if_neg hw]
            exact ih ws cnt hcell hcondrest

theorem updateScoreField_frame (targetRow col : Nat) (totalStr : String) (ws0 : Worksheet) :
    ∀ (hm : List (String × Nat)) (ws : Worksheet),
      ws.cells targetRow col = ws0.cells targetRow col →
      (∀ p ∈ hm, p.2 = col → shouldSkipField ws0 p.1 targetRow col = true) →
      ((updateScoreField ws totalStr targetRow hm).1).cells targetRow col
        = ws0.cells targetRow col := by
  intro hm
  induction hm with
  | nil => intro ws hcell _; exact hcell
  | cons p rest ih =>
    obtain ⟨hname, c⟩ := p
    intro ws hcell hcond
    have hcondrest : ∀ q ∈ rest, q.2 = col →
        shouldSkipField ws0 q.1 targetRow col = true :=
      fun q hq => hcond q (List.mem_cons_of_mem _ hq)
    simp only [updateScoreField]
    by_cases hkw : matchesScoreKeyword hname
    · rw [if_pos hkw]
      by_cases hskip : shouldSkipField ws hname targetRow c
      · rw [if_pos hskip]
        exact ih ws hcell hcondrest
      · rw [if_neg hskip]
        have hcne : c ≠ col := by
          intro hceq
          subst hceq
          have h0 := hcond (hname, c) (List.mem_cons_self _ _) rfl
          rw [shouldSkipField_congr ws0 ws hname targetRow c hcell] at hskip
          exact hskip h0
        show (setCell ws targetRow c (some (CellVal.s totalStr))).cells targetRow col
          = ws0.cells targetRow col
        rw [setCell_cells_ne ws targetRow c targetRow col _ (Or.inr (Ne.symm hcne))]
        exact hcell
    · rw [if_neg hkw]
      exact ih ws hcell hcondrest

theorem writeFieldsLoop_empty_values (hm : List (String × Nat)) (targetRow : Nat) :
    ∀ (data : List (String × Option CellVal)) (ws : Worksheet) (cnt : Nat),
      (∀ p ∈ data, p.2 = Option.none ∨ p.2 = some (CellVal.s "")) →
      writeFieldsLoop hm targetRow ws cnt data = (ws, cnt) := by
  intro data
  induction data with
  | nil => intro ws cnt _; rfl
  | cons p rest ih =>
    obtain ⟨name, av⟩ := p
    intro ws cnt hemp
    have hemprest : ∀ q ∈ rest, q.2 = Option.none ∨ q.2 = some (CellVal.s "") :=
      fun q hq => hemp q (List.mem_cons_of_mem _ hq)
    cases hl : lookupA hm name with
    | none =>
      simp only [writeFieldsLoop, hl]
      exact ih ws cnt hemprest
    | some c =>
      rcases hemp (name, av) (List.mem_cons_self _ _) with h0 | h0
      · simp only at h0
        subst h0
        simp only [writeFieldsLoop, hl]
        by_cases hskip : shouldSkipField ws name targetRow c
        · rw [if_pos hskip]
          exact ih ws cnt hemprest
        · rw [if_neg hskip]
          exact ih ws cnt hemprest
      · simp only at h0
        subst h0
        simp only [writeFieldsLoop, hl]
        by_cases hskip : shouldSkipField ws name targetRow c
        · rw [if_pos hskip]
          exact ih ws cnt hemprest
        · rw [if_neg hskip]
          have hw : writableCV (CellVal.s "") = false := by simp [writableCV]
          rw [hw]
          simp only [Bool.false_eq_true, if_false]
          exact ih ws cnt hemprest

theorem shouldSkipField_of_cond (ws : Worksheet) (name : String) (targetRow col : Nat)
    (h : containsSub (myLower name) "оцінка" = true ∨
         containsSub (myLower name) "оценка" = true ∨
         (∃ v, ws.cells targetRow col = some (CellVal.s v) ∧ v ≠ "" ∧
           (containsSub (myLower v) "пропускаємо" = true ∨
            containsSub (myLower v) "пропускаем" = true ∨
            startsWithChar v '=' = true))) :
    shouldSkipField ws name targetRow col = true := by
  unfold shouldSkipField
  rcases h with h | h | ⟨v, hv, hne, hc⟩
  · rw [if_pos (by simp [h])]
  · rw [if_pos (by simp [h])]
  · by_cases hk : (containsSub (myLower name) "оцінка"
        || containsSub (myLower name) "оценка") = true
    · rw [if_pos hk]
    · rw [if_neg hk]
      simp only [hv]
      rcases hc with hc | hc | hc
      · rw [if_pos (by simp [hne, hc])]
      · rw [if_pos (by simp [hne, hc])]
      · by_cases hm2 : (v ≠ "" && (containsSub (myLower v) "пропускаємо"
            || containsSub (myLower v) "пропускаем")) = true
        · rw [if_pos hm2]
        · rw [if_neg hm2]
          simp [hne, hc]

/-- Claim C3 (counterexample): the CLOUD writer has no skip rule.  With the
target cell (4, 1) holding the formula string `=X` (which begins with `=`),
`write_data_to_row` still overwrites it: the row is cleared and the field
value `v` is written over the formula. -/
theorem write_skip_rule_counterexample :
    cellGs [[], ["F"], ["tpl"], ["=X"]] 4 1 = "=X" ∧
    startsWithChar "=X" '=' = true ∧
    cellGs (writeDataToRowGs [[], ["F"], ["tpl"], ["=X"]] [("F", "v")]
      (some 4) 2 Option.none Option.none) 4 1 = "v" :=
  ⟨by decide, by decide, by decide⟩

/-- Claim C3 (amended): only the LOCAL workbook writer enforces the skip
rule (the cloud writer clears and overwrites the target row
unconditionally).  On the local backend, whenever a header name maps to
column `col` and (a) the name contains a score keyword, or (b) the target
cell holds a non-empty string containing a skip marker, or (c) the target
cell holds a non-empty string beginning with `=`, the whole
`write_data_to_row` commit leaves that cell unchanged — the field loop and
the `_total_score` autofill both consult the skip rule — provided the
filename autofill (which performs no skip check) does not target that same
column (in particular whenever no filename is passed). -/
theorem write_skip_rule_amended (ws : Worksheet) (data : List (String × Option CellVal))
    (targetRow headerRow : Nat) (filename : Option String) (name : String) (col : Nat)
    (hcol : lookupA (headerMapXl ws headerRow) name = some col)
    (hskip : containsSub (myLower name) "оцінка" = true ∨
         containsSub (myLower name) "оценка" = true ∨
         (∃ v, ws.cells targetRow col = some (CellVal.s v) ∧ v ≠ "" ∧
           (containsSub (myLower v) "пропускаємо" = true ∨
            containsSub (myLower v) "пропускаем" = true ∨
            startsWithChar v '=' = true)))
    (hfn : filename = Option.none ∨
      findFilenameTarget (headerMapXl ws headerRow) ≠ some col) :
    ((writeDataToRowXl ws data targetRow headerRow filename).1).cells targetRow col
      = ws.cells targetRow col := by
  have hsk : shouldSkipField ws name targetRow col = true :=
    shouldSkipField_of_cond ws name targetRow col hskip
  have huniq : ∀ p ∈ headerMapXl ws headerRow, p.2 = col → p.1 = name := by
    intro p hp hpc
    have hmem := lookupA_mem hcol
    have he := (headerMapXl_invariant ws headerRow ws.nCols).2 p hp (name, col) hmem
      (by rw [hpc])
    exact congrArg Prod.fst he
  have h1 : ((writeFieldsLoop (headerMapXl ws headerRow) targetRow ws 0 data).1).cells
      targetRow col = ws.cells targetRow col := by
    apply writeFieldsLoop_frame (headerMapXl ws headerRow) targetRow col ws data ws 0 rfl
    intro q hq hlq
    right; right
    have hq1 : q.1 = name := headerMapXl_lookup_inj ws headerRow q.1 name col hlq hcol
    rw [hq1]
    exact hsk
  have hscore : ∀ ws2 : Worksheet, ws2.cells targetRow col = ws.cells targetRow col →
      ∀ av : Option CellVal,
      ((updateScoreField ws2 (pyStrOpt av) targetRow (headerMapXl ws headerRow)).1).cells
        targetRow col = ws.cells targetRow col := by
    intro ws2 hw2 av
    apply updateScoreField_frame targetRow col (pyStrOpt av) ws (headerMapXl ws headerRow)
      ws2 hw2
    intro p hp hpc
    rw [huniq p hp hpc]
    exact hsk
  cases filename with
  | none =>
    cases hts : lookupA data "_total_score" with
    | none =>
      simp only [writeDataToRowXl, hts]
      exact h1
    | some av =>
      simp only [writeDataToRowXl, hts]
      exact hscore _ h1 av
  | some f =>
    have hfne : findFilenameTarget (headerMapXl ws headerRow) ≠ some col := by
      rcases hfn with hfe | hfne
      · exact Option.noConfusion hfe
      · exact hfne
    have h2 : ((writeFilenameField
        (writeFieldsLoop (headerMapXl ws headerRow) targetRow ws 0 data).1
        (headerMapXl ws headerRow) (cleanFilename f) targetRow
        (writeFieldsLoop (headerMapXl ws headerRow) targetRow ws 0 data).2).1).cells
        targetRow col = ws.cells targetRow col := by
      cases hft : findFilenameTarget (headerMapXl ws headerRow) with
      | none =>
        simp only [writeFilenameField, hft]
        exact h1
      | some c2 =>
        have hne : c2 ≠ col := fun hcc => hfne (by rw [hft, hcc])
        simp only [writeFilenameField, hft]
        rw [setCell_cells_ne _ _ _ _ _ _ (Or.inr (Ne.symm hne))]
        exact h1
    cases hts : lookupA data "_total_score" with
    | none =>
      simp only [writeDataToRowXl, hts]
      exact h2
    | some av =>
      simp only [writeDataToRowXl, hts]
      exact hscore _ h2 av

theorem write_skip_rule_amended_witness :
    ((writeDataToRowXl skipWS [("B", some (CellVal.s "x"))] 3 2 Option.none).1).cells 3 1
      = skipWS.cells 3 1 :=
  write_skip_rule_amended skipWS [("B", some (CellVal.s "x"))] 3 2 Option.none "B" 1
    (by decide)
    (Or.inr (Or.inr ⟨"=1", rfl, by decide, Or.inr (Or.inr (by decide))⟩))
    (Or.inl rfl)

/-- Claim C10 (counterexample): a field whose analyzed value is the empty
string is not written by the field loop and does not count toward success,
but when `_total_score` is present the score autofill writes `str(total)`
into that same (score-keyword) cell: the destination cell does NOT keep its
prior content. -/
theorem write_empty_value_counterexample :
    scoreWS.cells 3 1 = Option.none ∧
    ((writeDataToRowXl scoreWS
        [("score", some (CellVal.s "")), ("_total_score", some (CellVal.n 3))]
        3 2 Option.none).1).cells 3 1 = some (CellVal.s "3") ∧
    (writeDataToRowXl scoreWS
        [("score", some (CellVal.s "")), ("_total_score", some (CellVal.n 3))]
        3 2 Option.none).2 = false :=
  ⟨rfl, by decide, by decide⟩

/-- Claim C10 (amended): in the local writer, provided the data carries no
`_total_score` entry (whose autofill may overwrite a score-keyword column)
and no filename is passed (the filename autofill performs no value check),
a field whose analyzed value is `None` or the empty string leaves its
destination cell unchanged (given pairwise-distinct field names), and if
every field's value is `None` or empty the commit leaves the whole workbook
unchanged and reports failure (no field counts toward the written-field
count, so success requires at least one actually written field). -/
theorem write_empty_value_amended (ws : Worksheet) (data : List (String × Option CellVal))
    (targetRow headerRow : Nat)
    (hnd : (data.map Prod.fst).Nodup)
    (hts : lookupA data "_total_score" = Option.none) :
    (∀ p ∈ data, (p.2 = Option.none ∨ p.2 = some (CellVal.s "")) →
      ∀ col, lookupA (headerMapXl ws headerRow) p.1 = some col →
      ((writeDataToRowXl ws data targetRow headerRow Option.none).1).cells targetRow col
        = ws.cells targetRow col) ∧
    ((∀ p ∈ data, p.2 = Option.none ∨ p.2 = some (CellVal.s "")) →
      writeDataToRowXl ws data targetRow headerRow Option.none = (ws, false)) := by
  constructor
  · intro p hp hemp col hcol
    simp only [writeDataToRowXl, hts]
    apply writeFieldsLoop_frame (headerMapXl ws headerRow) targetRow col ws data ws 0 rfl
    intro q hq hlq
    have hq1 : q.1 = p.1 := headerMapXl_lookup_inj ws headerRow q.1 p.1 col hlq hcol
    have hqp := nodup_keys_entry_unique data hnd q hq p hp hq1
    rw [hqp]
    rcases hemp with h | h
    · exact Or.inl h
    · exact Or.inr (Or.inl h)
  · intro hall
    simp only [writeDataToRowXl, hts]
    rw [writeFieldsLoop_empty_values (headerMapXl ws headerRow) targetRow data ws 0 hall]
    rfl

theorem write_empty_value_amended_witness :
    ((writeDataToRowXl scoreWS [("score", some (CellVal.s ""))] 3 2 Option.none).1).cells
        3 1 = scoreWS.cells 3 1 ∧
    writeDataToRowXl scoreWS [("score", some (CellVal.s ""))] 3 2 Option.none
      = (scoreWS, false) :=
  ⟨(write_empty_value_amended scoreWS [("score", some (CellVal.s ""))] 3 2
      (by decide) (by decide)).1 ("score", some (CellVal.s ""))
      (by decide) (Or.inr rfl) 1 (by decide),
   (write_empty_value_amended scoreWS [("score", some (CellVal.s ""))] 3 2
      (by decide) (by decide)).2 (by decide)⟩
